import Mathlib

/-!
Verification development for the `issueclear` incremental synchronization engine.

We shallowly embed the normalized store (`issueclear/db.py`), the GitHub and
Jira scrapers' `incremental_sync` loops (`issueclear/scrape/github.py`,
`issueclear/scrape/jira.py`) and the GitHub pagination/error-handling loops.

Modelling conventions:
* Python `dict` records become structures of `Option` fields (`none` = key
  absent or JSON null; the source only ever uses `.get` on these keys, which
  conflates the two exactly as the model does).
* SQLite tables become Lean lists of row structures; the single-row
  `sync_state` table becomes an `Option String` field.  SQLite runs with
  foreign-key enforcement OFF (the code never issues `PRAGMA foreign_keys=ON`),
  so the embedded `upsert_comment` inserts rows without any parent check,
  exactly like the running code.
* Python string comparison (`>` on ISO timestamps) is lexicographic by code
  point, matching `String`'s order.
* Python truthiness on strings (`if ts`, `x or y`) is modelled explicitly:
  `none` and `some ""` are falsy.
* Network I/O is an input: `incremental_sync` receives the record stream the
  provider would yield and a function from issue identifier to its comment
  list.  Sleeps and progress display have no effect on store state; the
  pagination model records requests and sleeps as an explicit event trace.
* `json.dumps(raw)` stored in the `metadata` column is modelled by storing the
  raw record itself (dumps is injective on the modelled record shape).
-/

/-- Python truthiness of an optional string: `None` and `""` are falsy. -/
def truthyStr : Option String → Bool
  | none => false
  | some s => s != ""

/-- Python `a or b` on optional strings: yields `a` when truthy, else `b`. -/
def pyOrStr (a b : Option String) : Option String :=
  if truthyStr a then a else b

/-- First truthy string in a list, else `""` (models chained Python `or`
ending in `""`). -/
def firstTruthy : List (Option String) → String
  | [] => ""
  | none :: rest => firstTruthy rest
  | some s :: rest => if s = "" then firstTruthy rest else s

/-- Python `str.isdigit()` restricted to ASCII digits (the repository only
feeds ASCII issue keys). True iff nonempty and all characters are digits. -/
def isDigits (s : String) : Bool :=
  s ≠ "" && s.toList.all Char.isDigit

/-- Python `int(s)` on a digit string. -/
def digitsToInt (s : String) : Int :=
  Int.ofNat (s.toList.foldl (fun a c => a * 10 + (c.toNat - 48)) 0)

/-- Python `key.split("-")[-1]`: the trailing segment after the last `-`
(the whole string when no `-` occurs). -/
def lastDashSegment (s : String) : String :=
  String.mk (s.toList.foldl
    (fun acc c => if c = '-' then ([] : List Char) else acc ++ [c]) [])

/-- Python `<` on strings: lexicographic comparison by code point. -/
def strLt (a b : String) : Bool := decide (a.toList < b.toList)

/-- Python `str.lower()` restricted to ASCII case mapping (all states the
repository handles are ASCII). -/
def pyLower (s : String) : String := String.mk (s.toList.map Char.toLower)

/-- The provider-shaped `user` value: a plain string, a structured author
object (`login` / `name` / `displayName`), or anything else. -/
inductive PyUser where
  | str (s : String)
  | dict (login name displayName : Option String)
  | other
deriving Repr, DecidableEq

/-- `db._normalize_user`: plain string returned as-is; dict probed for
`login` / `name` / `displayName` with Python `or` chaining; else `""`. -/
def normalize_user : Option PyUser → String
  | some (.str s) => s
  | some (.dict l n d) => firstTruthy [l, n, d]
  | some .other => ""
  | none => ""

/-- A raw issue record in the GitHub-like shape consumed by
`RepoDatabase.upsert_issue` (fields read via `.get`). -/
structure RawIssue where
  number : Option Int
  title : Option String
  body : Option String
  state : Option String
  user : Option PyUser
  created_at : Option String
  updated_at : Option String
  closed_at : Option String
  comments : Option Int
deriving Repr, DecidableEq

/-- A raw comment record consumed by `RepoDatabase.upsert_comment`. -/
structure RawComment where
  id : Option Int
  body : Option String
  user : Option PyUser
  created_at : Option String
  updated_at : Option String
deriving Repr, DecidableEq

/-- A row of the `issues` table. -/
structure IssueRow where
  issue_id : String
  number : Int
  title : Option String
  body : Option String
  state : Option String
  user : String
  created_at : Option String
  updated_at : Option String
  closed_at : Option String
  comments_count : Option Int
  metadata : RawIssue
deriving Repr, DecidableEq

/-- A row of the `comments` table (`rowid` is the surrogate `id` column). -/
structure CommentRow where
  rowid : Nat
  comment_id : Int
  issue_id : String
  user : String
  body : Option String
  created_at : Option String
  updated_at : Option String
  metadata : RawComment
deriving Repr, DecidableEq

/-- The per-repo SQLite database: `issues`, `comments`, and the singleton
`sync_state.last_issue_sync` cell. -/
structure DB where
  issues : List IssueRow
  comments : List CommentRow
  cursor : Option String
deriving Repr, DecidableEq

/-- The empty, freshly created database. -/
def DB.empty : DB := ⟨[], [], none⟩

/-- `SELECT ... FROM issues WHERE issue_id=?`. -/
def findIssue (db : DB) (key : String) : Option IssueRow :=
  db.issues.find? (fun r => r.issue_id == key)

/-- `SELECT ... FROM comments WHERE comment_id=?`. -/
def findComment (db : DB) (cid : Int) : Option CommentRow :=
  db.comments.find? (fun r => r.comment_id == cid)

/-- `RepoDatabase.get_last_issue_sync`. -/
def get_last_issue_sync (db : DB) : Option String := db.cursor

/-- `RepoDatabase.update_last_issue_sync` (upsert of the singleton row). -/
def update_last_issue_sync (db : DB) (ts : String) : DB :=
  { db with cursor := some ts }

/-- The issues-table row built from a raw record (shared by the INSERT and
UPDATE arms of `upsert_issue`; the UPDATE arm keeps the row key). -/
def issueRowOf (issue_id : String) (n : Int) (j : RawIssue) : IssueRow :=
  { issue_id := issue_id
    number := n
    title := j.title
    body := j.body
    state := j.state
    user := normalize_user j.user
    created_at := j.created_at
    updated_at := j.updated_at
    closed_at := j.closed_at
    comments_count := j.comments
    metadata := j }

/-- `RepoDatabase.upsert_issue`.  Returns `(issue_key, inserted, changed)`
together with the post-state; raises (`Except.error`) when the record has no
`number`. -/
def upsert_issue (db : DB) (j : RawIssue) :
    Except String (String × Bool × Bool × DB) :=
  match j.number with
  | none => .error "Issue JSON missing 'number'"
  | some n =>
    let issue_id := toString n
    match findIssue db issue_id with
    | some row =>
      let changed := (j.title != row.title) || (j.body != row.body) ||
        (j.state != row.state) || (j.updated_at != row.updated_at)
      if changed then
        let newRow := issueRowOf issue_id n j
        let issues1 :=
          db.issues.map (fun r => if r.issue_id == issue_id then newRow else r)
        .ok (issue_id, false, true, { db with issues := issues1 })
      else
        .ok (issue_id, false, false, db)
    | none =>
      .ok (issue_id, true, true,
        { db with issues := db.issues ++ [issueRowOf issue_id n j] })

/-- `RepoDatabase.upsert_comment`.  No parent-issue check is performed: the
schema's FOREIGN KEY clause is inert because connections never enable
`PRAGMA foreign_keys`.  Returns `(comment_row_id, inserted, changed)` with the
post-state; raises when the record has no `id`. -/
def upsert_comment (db : DB) (issue_id : String) (c : RawComment) :
    Except String (Int × Bool × Bool × DB) :=
  match c.id with
  | none => .error "Comment JSON missing 'id'"
  | some cid =>
    match findComment db cid with
    | some row =>
      let changed := (c.body != row.body) || (c.updated_at != row.updated_at)
      if changed then
        let newRow : CommentRow :=
          { rowid := row.rowid
            comment_id := row.comment_id
            issue_id := issue_id
            user := normalize_user c.user
            body := c.body
            created_at := c.created_at
            updated_at := c.updated_at
            metadata := c }
        let comments1 :=
          db.comments.map (fun r => if r.rowid == row.rowid then newRow else r)
        .ok (Int.ofNat row.rowid, false, true, { db with comments := comments1 })
      else
        .ok (Int.ofNat row.rowid, false, false, db)
    | none =>
      let rid := db.comments.length + 1
      let newRow : CommentRow :=
        { rowid := rid
          comment_id := cid
          issue_id := issue_id
          user := normalize_user c.user
          body := c.body
          created_at := c.created_at
          updated_at := c.updated_at
          metadata := c }
      .ok (Int.ofNat rid, true, true,
        { db with comments := db.comments ++ [newRow] })

/-- Drain one issue's comment stream through `upsert_comment`
(`for comment_json in ...: db.upsert_comment(issue_id, comment_json)`).
Returns the post-state and the error message if an upsert raised; the failing
call itself leaves the store untouched, but earlier upserts stay committed. -/
def upsertComments (db : DB) (issue_id : String) :
    List RawComment → DB × Option String
  | [] => (db, none)
  | c :: rest =>
    match upsert_comment db issue_id c with
    | .error e => (db, some e)
    | .ok (_, _, _, db1) => upsertComments db1 issue_id rest

/-- Sort preference of `GitHubIssueScraper.incremental_sync`. -/
inductive Sortby where
  | updated
  | created
deriving Repr, DecidableEq

/-- In-flight state of a sync loop: the store, the in-memory max cursor, the
processed counter, and the log of issue identifiers whose comments were
listed (one entry per `list_comments` call, in order). -/
structure GHLoopState where
  db : DB
  maxCursor : Option String
  processed : Nat
  fetched : List Int
deriving Repr, DecidableEq

/-- Outcome of processing one record: continue, stop (limit `break`), or
abort with an exception (the state at the moment the exception escaped). -/
inductive LoopRes (σ : Type) where
  | cont (s : σ)
  | stop (s : σ)
  | fail (s : σ) (msg : String)
deriving Repr, DecidableEq

/-- `if limit and processed >= limit` (a `limit` of 0 is falsy in Python). -/
def limitHit (limit : Option Nat) (processed : Nat) : Bool :=
  match limit with
  | none => false
  | some l => l != 0 && processed ≥ l

/-- `if ts and (max_cursor is None or ts > max_cursor)`: returns the new
cursor value when the timestamp is truthy and advances the running max. -/
def tsAdvance (mc : Option String) : Option String → Option String
  | none => none
  | some t =>
    if t != "" && (match mc with | none => true | some c => strLt c t)
    then some t else none

/-- Body of the GitHub `incremental_sync` loop for one yielded record.
`comments n` is the stream `list_comments(n)` would yield. -/
def ghProcessOne (comments : Int → List RawComment) (sortby : Sortby)
    (limit : Option Nat) (s : GHLoopState) (r : RawIssue) :
    LoopRes GHLoopState :=
  match upsert_issue s.db r with
  | .error e => .fail s e
  | .ok (issue_id, inserted, changed, db1) =>
    let processed := s.processed + 1
    if limitHit limit processed then
      .stop { s with db := db1, processed := processed }
    else
      let ts := match sortby with
        | .updated => pyOrStr r.updated_at r.created_at
        | .created => none
      let step1 : DB × Option String :=
        match tsAdvance s.maxCursor ts with
        | some t => (update_last_issue_sync db1 t, some t)
        | none => (db1, s.maxCursor)
      let db2 := step1.1
      let mc2 := step1.2
      let ccount := r.comments.getD 0
      if ccount != 0 && (inserted || changed) then
        let n := r.number.getD 0
        let fetched2 := s.fetched ++ [n]
        let drained := upsertComments db2 issue_id (comments n)
        match drained.2 with
        | some e =>
          .fail { db := drained.1, maxCursor := mc2,
                  processed := processed, fetched := fetched2 } e
        | none =>
          .cont { db := drained.1, maxCursor := mc2,
                  processed := processed, fetched := fetched2 }
      else
        .cont { db := db2, maxCursor := mc2,
                processed := processed, fetched := s.fetched }

/-- The GitHub `incremental_sync` `for` loop over the scraper's stream.
Returns the final state and the escaped exception, if any. -/
def ghLoop (comments : Int → List RawComment) (sortby : Sortby)
    (limit : Option Nat) : List RawIssue → GHLoopState →
    GHLoopState × Option String
  | [], s => (s, none)
  | r :: rest, s =>
    match ghProcessOne comments sortby limit s r with
    | .cont s1 => ghLoop comments sortby limit rest s1
    | .stop s1 => (s1, none)
    | .fail s1 e => (s1, some e)

/-- Result of a full `incremental_sync` run: final store, the returned
summary (`processed_issues`, `last_updated`), the comment-fetch log, and the
escaped exception if the run aborted. -/
structure SyncRun where
  db : DB
  processed : Nat
  lastUpdated : Option String
  fetched : List Int
  error : Option String
deriving Repr, DecidableEq

/-- `GitHubIssueScraper.incremental_sync`.  `stream` is what
`list_issues(since_iso=...)` yields for this run; count estimation and the
progress bar touch no store state and are omitted. -/
def githubIncrementalSync (stream : List RawIssue)
    (comments : Int → List RawComment) (db : DB) (limit : Option Nat)
    (force_all : Bool) (sortby : Sortby) : SyncRun :=
  let last := if force_all then none else get_last_issue_sync db
  let s0 : GHLoopState := ⟨db, last, 0, []⟩
  let res := ghLoop comments sortby limit stream s0
  { db := res.1.db
    processed := res.1.processed
    lastUpdated := res.1.maxCursor
    fetched := res.1.fetched
    error := res.2 }

/-- The `status` object inside Jira issue fields. -/
structure JiraStatus where
  name : Option String
deriving Repr, DecidableEq

/-- The `reporter` / `author` object (only `displayName` is read). -/
structure JiraPerson where
  displayName : Option String
deriving Repr, DecidableEq

/-- The `comment` summary object inside Jira issue fields (only `total`). -/
structure JiraCommentMeta where
  total : Option Int
deriving Repr, DecidableEq

/-- The `fields` object of a raw Jira issue (the fields `_map_issue` reads). -/
structure JiraFields where
  summary : Option String
  description : Option String
  status : Option JiraStatus
  updated : Option String
  created : Option String
  comment : Option JiraCommentMeta
  reporter : Option JiraPerson
deriving Repr, DecidableEq

/-- A raw Jira issue record (`key` plus `fields`; `jira_issue.get("fields",
{})` makes an all-absent fields object the default). -/
structure JiraIssue where
  key : Option String
  fields : JiraFields
deriving Repr, DecidableEq

/-- A raw Jira comment record (the fields `_map_comment` reads; the id is a
JSON string). -/
structure JiraRawComment where
  id : Option String
  author : Option JiraPerson
  body : Option String
  created : Option String
  updated : Option String
deriving Repr, DecidableEq

/-- The digit-suffix extraction of `_map_issue`: `0` unless the key is truthy,
contains a dash, and its trailing dash segment is all digits. -/
def jiraNumberPart : Option String → Int
  | none => 0
  | some k =>
    if k != "" && k.toList.contains '-' then
      let tail := lastDashSegment k
      if isDigits tail then digitsToInt tail else 0
    else 0

/-- `JiraIssueScraper._map_issue`, mapping a raw Jira issue into the
GitHub-like shape fed to `upsert_issue`.  `pjd` stands for
`parse_jira_datetime`, whose output depends on the host timezone and is
therefore passed as a parameter (it is only ever applied to truthy inputs
here, mirroring the `if raw else None` guards).  The extra `key`,
`_provider` and `raw_fields` entries of the produced dict are only ever
stored inside the metadata JSON and are not modelled as separate fields. -/
def jiraMapIssue (pjd : String → String) (j : JiraIssue) : RawIssue :=
  let statusName : Option String :=
    match j.fields.status with
    | some st => st.name
    | none => none
  { number := some (jiraNumberPart j.key)
    title := j.fields.summary
    body := some (firstTruthy [j.fields.description])
    state := some (match statusName with
      | some s => if s = "" then "unknown" else pyLower s
      | none => "unknown")
    user := some (.str (firstTruthy [match j.fields.reporter with
      | some p => p.displayName
      | none => none]))
    created_at := match j.fields.created with
      | some c => if c = "" then none else some (pjd c)
      | none => none
    updated_at := match j.fields.updated with
      | some u => if u = "" then none else some (pjd u)
      | none => none
    closed_at := none
    comments := some ((match j.fields.comment with
      | some m => m.total
      | none => none).getD 0) }

/-- `JiraIssueScraper._map_comment`.  `pyhash` stands for Python's runtime
`hash` on strings (randomized per process), used only for non-digit comment
ids. -/
def jiraMapComment (pjd : String → String) (pyhash : String → Int)
    (issue_key : String) (c : JiraRawComment) : RawComment :=
  { id := some (match c.id with
      | some cid =>
        if cid != "" && isDigits cid then digitsToInt cid
        else pyhash (issue_key ++ ":" ++ cid)
      | none => pyhash (issue_key ++ ":None"))
    body := some (firstTruthy [c.body])
    user := some (.str (firstTruthy [match c.author with
      | some p => p.displayName
      | none => none]))
    created_at := match c.created with
      | some s => if s = "" then none else some (pjd s)
      | none => none
    updated_at := match c.updated with
      | some s => if s = "" then none else some (pjd s)
      | none => none }

/-- In-flight state of the Jira sync loop (comment fetches are logged by
issue key). -/
structure JiraLoopState where
  db : DB
  maxCursor : Option String
  processed : Nat
  fetched : List String
deriving Repr, DecidableEq

/-- Body of the Jira `incremental_sync` loop for one yielded record.  Unlike
the GitHub variant it never persists the cursor and fetches comments for any
new-or-changed issue regardless of the reported comment total; reading
`issue_json["key"]` raises a `KeyError` when the raw record has no key. -/
def jiraProcessOne (pjd : String → String) (pyhash : String → Int)
    (comments : String → List JiraRawComment) (limit : Option Nat)
    (s : JiraLoopState) (j : JiraIssue) : LoopRes JiraLoopState :=
  let gh_like := jiraMapIssue pjd j
  match upsert_issue s.db gh_like with
  | .error e => .fail s e
  | .ok (issue_id, inserted, changed, db1) =>
    let processed := s.processed + 1
    if limitHit limit processed then
      .stop { s with db := db1, processed := processed }
    else
      let mc2 :=
        match tsAdvance s.maxCursor gh_like.updated_at with
        | some t => some t
        | none => s.maxCursor
      if inserted || changed then
        match j.key with
        | none =>
          .fail { s with db := db1, maxCursor := mc2, processed := processed }
            "KeyError: 'key'"
        | some k =>
          let fetched2 := s.fetched ++ [k]
          let mapped := (comments k).map (jiraMapComment pjd pyhash k)
          let drained := upsertComments db1 issue_id mapped
          match drained.2 with
          | some e =>
            .fail { db := drained.1, maxCursor := mc2,
                    processed := processed, fetched := fetched2 } e
          | none =>
            .cont { db := drained.1, maxCursor := mc2,
                    processed := processed, fetched := fetched2 }
      else
        .cont { db := db1, maxCursor := mc2,
                processed := processed, fetched := s.fetched }

/-- The Jira `incremental_sync` `for` loop over the scraper's stream. -/
def jiraLoop (pjd : String → String) (pyhash : String → Int)
    (comments : String → List JiraRawComment) (limit : Option Nat) :
    List JiraIssue → JiraLoopState → JiraLoopState × Option String
  | [], s => (s, none)
  | j :: rest, s =>
    match jiraProcessOne pjd pyhash comments limit s j with
    | .cont s1 => jiraLoop pjd pyhash comments limit rest s1
    | .stop s1 => (s1, none)
    | .fail s1 e => (s1, some e)

/-- Result of a full Jira `incremental_sync` run. -/
structure JiraSyncRun where
  db : DB
  processed : Nat
  lastUpdated : Option String
  fetched : List String
  error : Option String
deriving Repr, DecidableEq

/-- `JiraIssueScraper.incremental_sync`.  After the loop (also after a limit
`break`, but not after an escaped exception) the cursor is persisted once,
guarded by `if max_updated:` truthiness. -/
def jiraIncrementalSync (pjd : String → String) (pyhash : String → Int)
    (stream : List JiraIssue) (comments : String → List JiraRawComment)
    (db : DB) (limit : Option Nat) : JiraSyncRun :=
  let last := get_last_issue_sync db
  let s0 : JiraLoopState := ⟨db, last, 0, []⟩
  let res := jiraLoop pjd pyhash comments limit stream s0
  match res.2 with
  | some e =>
    { db := res.1.db, processed := res.1.processed,
      lastUpdated := res.1.maxCursor, fetched := res.1.fetched,
      error := some e }
  | none =>
    let finalDb :=
      if truthyStr res.1.maxCursor then
        update_last_issue_sync res.1.db (res.1.maxCursor.getD "")
      else res.1.db
    { db := finalDb, processed := res.1.processed,
      lastUpdated := res.1.maxCursor, fetched := res.1.fetched,
      error := none }

/-- Observable transport events of a paging loop: an HTTP request (URL plus
whether the explicit `params` dict still accompanies it), a fixed
`time.sleep` of the given number of seconds, and the small courtesy delay
`polite_sleep` between successful pages. -/
inductive GHEvent where
  | request (url : String) (withParams : Bool)
  | sleep (seconds : Nat)
  | politeSleep
deriving Repr, DecidableEq

/-- One transport response: status code, parsed JSON batch, and the
`rel="next"` URL extracted from the `Link` header, if any. -/
structure GHPage (α : Type) where
  status : Nat
  body : List α
  linkNext : Option String
deriving Repr, DecidableEq

/-- Outcome of a paging loop: normal termination with the yielded items, a
raised `RuntimeError` carrying the offending status, or the model-side
marker that the supplied response list ran out while the loop wanted to
request again. -/
inductive PageOutcome (α : Type) where
  | ok (items : List α)
  | fatal (status : Nat)
  | exhausted (items : List α)
deriving Repr, DecidableEq

/-- Prepend a page's yielded items to a later outcome. -/
def PageOutcome.consItems (xs : List α) : PageOutcome α → PageOutcome α
  | .ok ys => .ok (xs ++ ys)
  | .fatal s => .fatal s
  | .exhausted ys => .exhausted (xs ++ ys)

/-- The `while next_url` loop of `GitHubIssueScraper.list_issues`, driven by
the successive transport responses.  Status 403 sleeps 3600 s and re-requests
the same URL with the same params; any other non-200 status (422 included)
raises; an empty batch breaks; otherwise the items are yielded, params are
dropped, and the loop follows the `Link` header after a courtesy delay. -/
def listIssuesPages : List (GHPage α) → String → Bool →
    List GHEvent × PageOutcome α
  | [], _, _ => ([], .exhausted [])
  | pg :: rest, url, p =>
    if pg.status = 403 then
      let r := listIssuesPages rest url p
      (.request url p :: .sleep 3600 :: r.1, r.2)
    else if pg.status ≠ 200 then
      ([.request url p], .fatal pg.status)
    else if pg.body.isEmpty then
      ([.request url p], .ok [])
    else
      match pg.linkNext with
      | none => ([.request url p, .politeSleep], .ok pg.body)
      | some u =>
        let r := listIssuesPages rest u false
        (.request url p :: .politeSleep :: r.1, .consItems pg.body r.2)

/-- The `while next_url` loop of `GitHubIssueScraper.list_comments`.  Same as
the issues loop except that a 404 is treated as transient jitter: sleep 10 s
and re-request the same URL with the same params. -/
def listCommentsPages : List (GHPage α) → String → Bool →
    List GHEvent × PageOutcome α
  | [], _, _ => ([], .exhausted [])
  | pg :: rest, url, p =>
    if pg.status = 403 then
      let r := listCommentsPages rest url p
      (.request url p :: .sleep 3600 :: r.1, r.2)
    else if pg.status = 404 then
      let r := listCommentsPages rest url p
      (.request url p :: .sleep 10 :: r.1, r.2)
    else if pg.status ≠ 200 then
      ([.request url p], .fatal pg.status)
    else if pg.body.isEmpty then
      ([.request url p], .ok [])
    else
      match pg.linkNext with
      | none => ([.request url p, .politeSleep], .ok pg.body)
      | some u =>
        let r := listCommentsPages rest u false
        (.request url p :: .politeSleep :: r.1, .consItems pg.body r.2)

/-- The state carried out of a loop-body outcome, whatever the outcome. -/
def LoopRes.state : LoopRes σ → σ
  | .cont s => s
  | .stop s => s
  | .fail s _ => s

/-- Running maximum of the cursor against one timestamp, Python style
(`max_cursor is None or ts > max_cursor`). -/
def cursorMax (m : Option String) (u : String) : Option String :=
  match m with
  | none => some u
  | some c => if strLt c u then some u else some c

/-- The cursor after folding a list of timestamps into a prior cursor. -/
def cursorFold (mc : Option String) (us : List String) : Option String :=
  us.foldl cursorMax mc

/-- The timestamp a GitHub record contributes under the `updated` sort
(`updated_at` with `created_at` fallback); `""` stands for a missing value
and never arises for the well-formed records the lemmas quantify over. -/
def updOf (r : RawIssue) : String := r.updated_at.getD ""

/-- The timestamp the mapped form of a Jira record contributes. -/
def jUpdOf (pjd : String → String) (j : JiraIssue) : String :=
  (jiraMapIssue pjd j).updated_at.getD ""

/-- Sample raw issue used by witness instantiations. -/
def sampleIssue : RawIssue :=
  ⟨some 2, some "t", none, some "open", none, none,
    some "2024-01-01T00:00:00Z", none, some 0⟩

/-- Sample raw comment used by witness instantiations. -/
def sampleComment : RawComment :=
  ⟨some 7, some "hi", none, none, none⟩

/-- Sample raw Jira issue (trailing key digits 1, status Open, zero reported
comments, one truthy update timestamp) used by witnesses/counterexamples. -/
def jiraSampleIssue : JiraIssue :=
  ⟨some "PROJ-1", ⟨some "T1", none, some ⟨some "Open"⟩,
    some "2024-01-01T00:00:00Z", none, some ⟨some 0⟩, none⟩⟩

/-- A store holding only a prior sync cursor. -/
def dbWithCursor : DB := ⟨[], [], some "2020-01-01T00:00:00Z"⟩

theorem upsert_issue_ok_frame (db : DB) (j : RawIssue) (k : String)
    (i c : Bool) (db' : DB) (h : upsert_issue db j = .ok (k, i, c, db')) :
    db'.cursor = db.cursor ∧ db'.comments = db.comments := by
  unfold upsert_issue at h
  cases hn : j.number with
  | none => rw [hn] at h; exact absurd h (by simp)
  | some n =>
    rw [hn] at h
    dsimp only at h
    cases hf : findIssue db (toString n) with
    | some row =>
      rw [hf] at h
      dsimp only at h
      split at h
      · rw [Except.ok.injEq] at h
        simp only [Prod.mk.injEq] at h
        obtain ⟨-, -, -, hdb⟩ := h
        subst hdb
        exact ⟨rfl, rfl⟩
      · rw [Except.ok.injEq] at h
        simp only [Prod.mk.injEq] at h
        obtain ⟨-, -, -, hdb⟩ := h
        subst hdb
        exact ⟨rfl, rfl⟩
    | none =>
      rw [hf] at h
      dsimp only at h
      rw [Except.ok.injEq] at h
      simp only [Prod.mk.injEq] at h
      obtain ⟨-, -, -, hdb⟩ := h
      subst hdb
      exact ⟨rfl, rfl⟩

theorem upsert_comment_ok_frame (db : DB) (key : String) (c : RawComment)
    (cid : Int) (i ch : Bool) (db' : DB)
    (h : upsert_comment db key c = .ok (cid, i, ch, db')) :
    db'.cursor = db.cursor ∧ db'.issues = db.issues := by
  unfold upsert_comment at h
  cases hn : c.id with
  | none => rw [hn] at h; exact absurd h (by simp)
  | some n =>
    rw [hn] at h
    dsimp only at h
    cases hf : findComment db n with
    | some row =>
      rw [hf] at h
      dsimp only at h
      split at h
      · rw [Except.ok.injEq] at h
        simp only [Prod.mk.injEq] at h
        obtain ⟨-, -, -, hdb⟩ := h
        subst hdb
        exact ⟨rfl, rfl⟩
      · rw [Except.ok.injEq] at h
        simp only [Prod.mk.injEq] at h
        obtain ⟨-, -, -, hdb⟩ := h
        subst hdb
        exact ⟨rfl, rfl⟩
    | none =>
      rw [hf] at h
      dsimp only at h
      rw [Except.ok.injEq] at h
      simp only [Prod.mk.injEq] at h
      obtain ⟨-, -, -, hdb⟩ := h
      subst hdb
      exact ⟨rfl, rfl⟩

theorem upsertComments_frame (key : String) :
    ∀ (l : List RawComment) (db : DB),
      (upsertComments db key l).1.cursor = db.cursor ∧
      (upsertComments db key l).1.issues = db.issues := by
  intro l
  induction l with
  | nil => intro db; exact ⟨rfl, rfl⟩
  | cons c rest ih =>
    intro db
    unfold upsertComments
    cases hu : upsert_comment db key c with
    | error e => exact ⟨rfl, rfl⟩
    | ok res =>
      obtain ⟨cid, i, ch, db1⟩ := res
      obtain ⟨h1, h2⟩ := upsert_comment_ok_frame db key c cid i ch db1 hu
      dsimp only
      obtain ⟨h3, h4⟩ := ih db1
      exact ⟨h3.trans h1, h4.trans h2⟩

theorem upsert_issue_absent (db : DB) (j : RawIssue) (n : Int)
    (hn : j.number = some n) (hf : findIssue db (toString n) = none) :
    upsert_issue db j = .ok (toString n, true, true,
      { db with issues := db.issues ++ [issueRowOf (toString n) n j] }) := by
  unfold upsert_issue
  rw [hn]
  dsimp only
  rw [hf]

theorem upsert_issue_present_eq (db : DB) (j : RawIssue) (n : Int)
    (row : IssueRow) (hn : j.number = some n)
    (hf : findIssue db (toString n) = some row)
    (ht : j.title = row.title) (hb : j.body = row.body)
    (hs : j.state = row.state) (hu : j.updated_at = row.updated_at) :
    upsert_issue db j = .ok (toString n, false, false, db) := by
  unfold upsert_issue
  rw [hn]
  dsimp only
  rw [hf]
  dsimp only
  rw [ht, hb, hs, hu]
  simp

theorem upsert_issue_ok_of_number (db : DB) (j : RawIssue) (n : Int)
    (hn : j.number = some n) :
    ∃ i c db', upsert_issue db j = .ok (toString n, i, c, db') := by
  unfold upsert_issue
  rw [hn]
  dsimp only
  cases hf : findIssue db (toString n) with
  | some row =>
    dsimp only
    split
    · exact ⟨false, true, _, rfl⟩
    · exact ⟨false, false, db, rfl⟩
  | none => exact ⟨true, true, _, rfl⟩

theorem upsert_comment_ok_of_id (db : DB) (key : String) (c : RawComment)
    (n : Int) (hn : c.id = some n) :
    ∃ cid i ch db', upsert_comment db key c = .ok (cid, i, ch, db') := by
  unfold upsert_comment
  rw [hn]
  dsimp only
  cases hf : findComment db n with
  | some row =>
    dsimp only
    split
    · exact ⟨_, false, true, _, rfl⟩
    · exact ⟨_, false, false, db, rfl⟩
  | none => exact ⟨_, true, true, _, rfl⟩

theorem upsertComments_ok (key : String) :
    ∀ (l : List RawComment) (db : DB),
      (∀ c ∈ l, ∃ i, c.id = some i) →
      (upsertComments db key l).2 = none := by
  intro l
  induction l with
  | nil => intro db _; rfl
  | cons c rest ih =>
    intro db hids
    obtain ⟨i, hi⟩ := hids c (List.mem_cons_self c rest)
    obtain ⟨cid, ins, ch, db', hu⟩ := upsert_comment_ok_of_id db key c i hi
    unfold upsertComments
    rw [hu]
    exact ih db' (fun x hx => hids x (List.mem_cons_of_mem c hx))

theorem findIssue_append_self (db : DB) (n : Int) (j : RawIssue)
    (hf : findIssue db (toString n) = none) :
    findIssue { db with issues := db.issues ++ [issueRowOf (toString n) n j] }
      (toString n) = some (issueRowOf (toString n) n j) := by
  unfold findIssue at hf ⊢
  rw [List.find?_append, hf]
  simp [issueRowOf, List.find?]

/-- C3: for a raw issue record carrying a numeric identifier and not yet in
the store, two successive `upsert_issue` calls return
`(inserted=True, changed=True)` then `(inserted=False, changed=False)`, and
the store (hence the stored issue row) is identical after both calls: the
second call returns the first call's post-state unchanged. -/
theorem upsert_issue_idempotent_pair (db : DB) (j : RawIssue) (n : Int)
    (hn : j.number = some n) (hf : findIssue db (toString n) = none) :
    ∃ db1, upsert_issue db j = .ok (toString n, true, true, db1) ∧
      upsert_issue db1 j = .ok (toString n, false, false, db1) := by
  refine ⟨_, upsert_issue_absent db j n hn hf, ?_⟩
  exact upsert_issue_present_eq _ j n (issueRowOf (toString n) n j) hn
    (findIssue_append_self db n j hf) rfl rfl rfl rfl

theorem upsert_issue_idempotent_pair_witness :
    ∃ db1, upsert_issue DB.empty
        ⟨some 1, some "t", some "b", some "open", none, none,
          some "2024-01-01T00:00:00Z", none, some 0⟩ =
        .ok ("1", true, true, db1) ∧
      upsert_issue db1
        ⟨some 1, some "t", some "b", some "open", none, none,
          some "2024-01-01T00:00:00Z", none, some 0⟩ =
        .ok ("1", false, false, db1) :=
  upsert_issue_idempotent_pair DB.empty _ 1 rfl rfl

/-- C4: `upsert_issue` looks up by the string form of the record's number; if
absent it inserts the row built from the record and returns
`(key, True, True)`; if present it returns `inserted=False` and
`changed=True` exactly when one of title, body, state, updated_at differs
from the stored value, rewrites the row only in that case, and otherwise
returns the store completely unchanged. -/
theorem upsert_issue_contract (db : DB) (j : RawIssue) (n : Int)
    (hn : j.number = some n) :
    (findIssue db (toString n) = none →
      upsert_issue db j = .ok (toString n, true, true,
        { db with issues := db.issues ++ [issueRowOf (toString n) n j] })) ∧
    (∀ row, findIssue db (toString n) = some row →
      ∃ ch, upsert_issue db j = .ok (toString n, false, ch,
          if ch then { db with issues := db.issues.map (fun r =>
            if r.issue_id == toString n then issueRowOf (toString n) n j
            else r) }
          else db) ∧
        (ch = true ↔ (j.title ≠ row.title ∨ j.body ≠ row.body ∨
          j.state ≠ row.state ∨ j.updated_at ≠ row.updated_at))) := by
  constructor
  · intro hf
    exact upsert_issue_absent db j n hn hf
  · intro row hf
    refine ⟨(j.title != row.title) || (j.body != row.body) ||
      (j.state != row.state) || (j.updated_at != row.updated_at), ?_, ?_⟩
    · unfold upsert_issue
      rw [hn]
      dsimp only
      rw [hf]
      dsimp only
      split
      · next hc => simp only [hc, if_true]
      · next hc =>
        simp only [Bool.not_eq_true] at hc
        simp only [hc, Bool.false_eq_true, if_false]
    · constructor
      · intro hc
        simp only [Bool.or_eq_true, bne_iff_ne, ne_eq] at hc
        tauto
      · intro hc
        simp only [Bool.or_eq_true, bne_iff_ne, ne_eq]
        tauto

theorem upsert_issue_contract_witness :
    (findIssue DB.empty (toString (2 : Int)) = none →
      upsert_issue DB.empty sampleIssue = .ok (toString (2 : Int), true, true,
        { DB.empty with issues := DB.empty.issues ++
          [issueRowOf (toString (2 : Int)) 2 sampleIssue] })) ∧
    (∀ row, findIssue DB.empty (toString (2 : Int)) = some row →
      ∃ ch, upsert_issue DB.empty sampleIssue =
          .ok (toString (2 : Int), false, ch,
          if ch then { DB.empty with issues := DB.empty.issues.map (fun r =>
            if r.issue_id == toString (2 : Int)
            then issueRowOf (toString (2 : Int)) 2 sampleIssue else r) }
          else DB.empty) ∧
        (ch = true ↔ (sampleIssue.title ≠ row.title ∨
          sampleIssue.body ≠ row.body ∨ sampleIssue.state ≠ row.state ∨
          sampleIssue.updated_at ≠ row.updated_at))) :=
  upsert_issue_contract DB.empty sampleIssue 2 rfl

/-- C10: for an existing issue whose incoming title, body, state and
updated_at all equal the stored values, `upsert_issue` returns the store
completely unchanged — in particular the stored row keeps its user,
created_at, closed_at, comments_count and metadata columns even when the
incoming record's values for those fields differ. -/
theorem upsert_issue_unchanged_is_pure_noop (db : DB) (j : RawIssue) (n : Int)
    (row : IssueRow) (hn : j.number = some n)
    (hf : findIssue db (toString n) = some row)
    (ht : j.title = row.title) (hb : j.body = row.body)
    (hs : j.state = row.state) (hu : j.updated_at = row.updated_at) :
    upsert_issue db j = .ok (toString n, false, false, db) :=
  upsert_issue_present_eq db j n row hn hf ht hb hs hu

theorem upsert_issue_unchanged_is_pure_noop_witness :
    upsert_issue
      { DB.empty with issues := [issueRowOf (toString (2 : Int)) 2 sampleIssue] }
      { sampleIssue with
        user := some (.str "someoneelse")
        created_at := some "1999-01-01T00:00:00Z"
        closed_at := some "2030-01-01T00:00:00Z"
        comments := some 55 } =
      .ok (toString (2 : Int), false, false,
        { DB.empty with issues :=
          [issueRowOf (toString (2 : Int)) 2 sampleIssue] }) :=
  upsert_issue_unchanged_is_pure_noop _ _ 2
    (issueRowOf (toString (2 : Int)) 2 sampleIssue) rfl rfl rfl rfl rfl rfl

/-- C5 (code bug): `upsert_comment` for an issue key never upserted is not
rejected and is not a no-op: starting from the empty store it inserts a
comment row whose `issue_id` references no issue row.  The schema's FOREIGN
KEY clause does not fire because the code never enables SQLite foreign-key
enforcement on its connections. -/
theorem upsert_comment_creates_orphan_row :
    ∃ db1, upsert_comment DB.empty "1" sampleComment =
        .ok (1, true, true, db1) ∧ db1.issues = [] ∧
      db1.comments.map (fun r => r.issue_id) = ["1"] :=
  ⟨_, rfl, rfl, rfl⟩

/-- C6: `upsert_issue` raises when the raw record lacks a numeric issue
identifier and `upsert_comment` raises when the raw record lacks a comment
identifier; in either case the sync run aborts at that record with the store
(issues, comments, and cursor) exactly as it was before the failing call:
the GitHub loop returns its incoming state unchanged, and a failing comment
drain returns the store as of the last successful comment upsert, untouched
by the failing call. -/
theorem missing_identifier_aborts_run :
    (∀ (db : DB) (j : RawIssue), j.number = none →
      upsert_issue db j = .error "Issue JSON missing 'number'") ∧
    (∀ (db : DB) (key : String) (c : RawComment), c.id = none →
      upsert_comment db key c = .error "Comment JSON missing 'id'") ∧
    (∀ (comments : Int → List RawComment) (sortby : Sortby)
        (limit : Option Nat) (s : GHLoopState) (r : RawIssue)
        (rest : List RawIssue), r.number = none →
      ghLoop comments sortby limit (r :: rest) s =
        (s, some "Issue JSON missing 'number'")) ∧
    (∀ (db : DB) (key : String) (c : RawComment) (rest : List RawComment),
      c.id = none →
      upsertComments db key (c :: rest) =
        (db, some "Comment JSON missing 'id'")) := by
  refine ⟨?_, ?_, ?_, ?_⟩
  · intro db j hn
    unfold upsert_issue
    rw [hn]
  · intro db key c hn
    unfold upsert_comment
    rw [hn]
  · intro comments sortby limit s r rest hn
    unfold ghLoop ghProcessOne
    rw [show upsert_issue s.db r = .error "Issue JSON missing 'number'" by
      unfold upsert_issue; rw [hn]]
  · intro db key c rest hn
    unfold upsertComments
    rw [show upsert_comment db key c = .error "Comment JSON missing 'id'" by
      unfold upsert_comment; rw [hn]]

theorem missing_identifier_aborts_run_witness :
    upsert_issue DB.empty { sampleIssue with number := none } =
        .error "Issue JSON missing 'number'" ∧
      upsert_comment DB.empty "1" { sampleComment with id := none } =
        .error "Comment JSON missing 'id'" ∧
      ghLoop (fun _ => []) .updated none
          [{ sampleIssue with number := none }] ⟨DB.empty, none, 0, []⟩ =
        (⟨DB.empty, none, 0, []⟩, some "Issue JSON missing 'number'") ∧
      upsertComments DB.empty "1" [{ sampleComment with id := none }] =
        (DB.empty, some "Comment JSON missing 'id'") :=
  ⟨missing_identifier_aborts_run.1 DB.empty _ rfl,
    missing_identifier_aborts_run.2.1 DB.empty "1" _ rfl,
    missing_identifier_aborts_run.2.2.1 (fun _ => []) .updated none
      ⟨DB.empty, none, 0, []⟩ _ [] rfl,
    missing_identifier_aborts_run.2.2.2 DB.empty "1" _ [] rfl⟩

/-- C8: `_map_issue` maps a raw Jira record into the common shape with
`closed_at` null unconditionally, `number` equal to the decimal value of the
digits trailing the last dash of the project key, and `state` equal to the
lower-cased status name (whenever the key is well formed and a status name
is present). -/
theorem jira_map_issue_shape :
    (∀ (pjd : String → String) (j : JiraIssue),
      (jiraMapIssue pjd j).closed_at = none) ∧
    (∀ (pjd : String → String) (j : JiraIssue) (k : String),
      j.key = some k → k ≠ "" → k.toList.contains '-' = true →
      isDigits (lastDashSegment k) = true →
      (jiraMapIssue pjd j).number =
        some (digitsToInt (lastDashSegment k))) ∧
    (∀ (pjd : String → String) (j : JiraIssue) (st : JiraStatus) (s : String),
      j.fields.status = some st → st.name = some s → s ≠ "" →
      (jiraMapIssue pjd j).state = some (pyLower s)) := by
  refine ⟨fun pjd j => rfl, ?_, ?_⟩
  · intro pjd j k hk hne hdash hdig
    unfold jiraMapIssue
    dsimp only
    rw [hk]
    unfold jiraNumberPart
    dsimp only
    rw [show (k != "") = true by simpa using hne, hdash]
    simp [hdig]
  · intro pjd j st s hst hname hne
    unfold jiraMapIssue
    dsimp only
    rw [hst]
    dsimp only
    rw [hname]
    simp [hne]

theorem jira_map_issue_shape_witness :
    (jiraMapIssue id ⟨some "PROJ-12",
        ⟨some "T", none, some ⟨some "Open"⟩, some "2024-01-01T00:00:00Z",
          none, some ⟨some 0⟩, none⟩⟩).closed_at = none ∧
      (jiraMapIssue id ⟨some "PROJ-12",
        ⟨some "T", none, some ⟨some "Open"⟩, some "2024-01-01T00:00:00Z",
          none, some ⟨some 0⟩, none⟩⟩).number =
        some (digitsToInt (lastDashSegment "PROJ-12")) ∧
      (jiraMapIssue id ⟨some "PROJ-12",
        ⟨some "T", none, some ⟨some "Open"⟩, some "2024-01-01T00:00:00Z",
          none, some ⟨some 0⟩, none⟩⟩).state = some (pyLower "Open") :=
  ⟨jira_map_issue_shape.1 id _,
    jira_map_issue_shape.2.1 id _ "PROJ-12" rfl (by decide) (by decide)
      (by decide),
    jira_map_issue_shape.2.2 id _ ⟨some "Open"⟩ "Open" rfl rfl (by decide)⟩

theorem tsAdvance_cases (mc : Option String) (u : String) (hu : u ≠ "") :
    (tsAdvance mc (some u) = some u ∧ cursorMax mc u = some u) ∨
    (tsAdvance mc (some u) = none ∧ cursorMax mc u = mc) := by
  cases mc with
  | none =>
    left
    constructor
    · unfold tsAdvance
      simp [hu]
    · rfl
  | some c =>
    by_cases hlt : strLt c u = true
    · left
      constructor
      · unfold tsAdvance
        simp [hu, hlt]
      · unfold cursorMax
        dsimp only
        rw [if_pos hlt]
    · right
      constructor
      · unfold tsAdvance
        simp only [Bool.and_eq_true, bne_iff_ne, ne_eq]
        rw [if_neg]
        intro hcon
        exact absurd hcon.2 hlt
      · unfold cursorMax
        dsimp only
        rw [if_neg hlt]

theorem pyOrStr_truthy (u : String) (hu : u ≠ "") (b : Option String) :
    pyOrStr (some u) b = some u := by
  unfold pyOrStr truthyStr
  simp [hu]

theorem ghProcessOne_aligned (comments : Int → List RawComment)
    (s : GHLoopState) (r : RawIssue) (nr : Int) (u : String)
    (hn : r.number = some nr) (hu : r.updated_at = some u) (hune : u ≠ "")
    (hal : s.db.cursor = s.maxCursor)
    (hcomm : ∀ c ∈ comments (r.number.getD 0), ∃ i, c.id = some i) :
    ∃ s', ghProcessOne comments .updated none s r = .cont s' ∧
      s'.db.cursor = s'.maxCursor ∧
      s'.maxCursor = cursorMax s.maxCursor u ∧
      s'.processed = s.processed + 1 := by
  obtain ⟨ins, ch, db1, hup⟩ := upsert_issue_ok_of_number s.db r nr hn
  have hfr := upsert_issue_ok_frame s.db r (toString nr) ins ch db1 hup
  unfold ghProcessOne
  rw [hup]
  dsimp only
  simp only [show limitHit none (s.processed + 1) = false from rfl,
    Bool.false_eq_true, if_false]
  rw [hu, pyOrStr_truthy u hune r.created_at]
  rcases tsAdvance_cases s.maxCursor u hune with ⟨hadv, hmax⟩ | ⟨hadv, hmax⟩ <;>
    rw [hadv] <;> dsimp only
  · by_cases hfetch : (r.comments.getD 0 != 0 && (ins || ch)) = true
    · rw [if_pos hfetch]
      have hok := upsertComments_ok (toString nr)
        (comments (r.number.getD 0)) (update_last_issue_sync db1 u) hcomm
      cases hdr : upsertComments (update_last_issue_sync db1 u) (toString nr)
          (comments (r.number.getD 0)) with
      | mk db3 err =>
        have hfr2 := upsertComments_frame (toString nr)
          (comments (r.number.getD 0)) (update_last_issue_sync db1 u)
        rw [hdr] at hok hfr2
        dsimp only at hok
        subst hok
        dsimp only
        refine ⟨_, rfl, ?_, hmax.symm ▸ rfl, rfl⟩
        exact hfr2.1
    · rw [if_neg hfetch]
      exact ⟨_, rfl, rfl, hmax.symm ▸ rfl, rfl⟩
  · by_cases hfetch : (r.comments.getD 0 != 0 && (ins || ch)) = true
    · rw [if_pos hfetch]
      have hok := upsertComments_ok (toString nr)
        (comments (r.number.getD 0)) db1 hcomm
      cases hdr : upsertComments db1 (toString nr)
          (comments (r.number.getD 0)) with
      | mk db3 err =>
        have hfr2 := upsertComments_frame (toString nr)
          (comments (r.number.getD 0)) db1
        rw [hdr] at hok hfr2
        dsimp only at hok
        subst hok
        dsimp only
        refine ⟨_, rfl, ?_, hmax.symm ▸ rfl, rfl⟩
        rw [hfr2.1, hfr.1, hal]
    · rw [if_neg hfetch]
      refine ⟨_, rfl, ?_, hmax.symm ▸ rfl, rfl⟩
      dsimp only
      rw [hfr.1, hal]

theorem ghLoop_cursor_aligned (comments : Int → List RawComment)
    (hcomm : ∀ n, ∀ c ∈ comments n, ∃ i, c.id = some i) :
    ∀ (stream : List RawIssue) (s : GHLoopState),
      s.db.cursor = s.maxCursor →
      (∀ r ∈ stream, (∃ nr, r.number = some nr) ∧
        ∃ u, r.updated_at = some u ∧ u ≠ "") →
      (ghLoop comments .updated none stream s).2 = none ∧
      (ghLoop comments .updated none stream s).1.db.cursor =
        (ghLoop comments .updated none stream s).1.maxCursor ∧
      (ghLoop comments .updated none stream s).1.maxCursor =
        cursorFold s.maxCursor (stream.map updOf) := by
  intro stream
  induction stream with
  | nil => intro s hal _; exact ⟨rfl, hal, rfl⟩
  | cons r rest ih =>
    intro s hal hgood
    obtain ⟨⟨nr, hn⟩, u, hu, hune⟩ := hgood r (List.mem_cons_self r rest)
    obtain ⟨s1, hstep, hal1, hmc1, -⟩ :=
      ghProcessOne_aligned comments s r nr u hn hu hune hal
        (hcomm (r.number.getD 0))
    have hloop : ghLoop comments .updated none (r :: rest) s =
        ghLoop comments .updated none rest s1 := by
      conv_lhs => rw [ghLoop, hstep]
    rw [hloop]
    obtain ⟨he, ha, hm⟩ := ih s1 hal1
      (fun x hx => hgood x (List.mem_cons_of_mem r hx))
    refine ⟨he, ha, ?_⟩
    rw [hm, hmc1]
    show cursorFold (cursorMax s.maxCursor u) (rest.map updOf) = _
    have : updOf r = u := by
      unfold updOf
      rw [hu]
      rfl
    rw [List.map_cons, this]
    rfl

theorem strLt_iff (a b : String) : strLt a b = true ↔ a.toList < b.toList := by
  simp [strLt]

theorem strLt_trans (a b c : String) (h1 : strLt a b = true)
    (h2 : strLt b c = true) : strLt a c = true := by
  rw [strLt_iff] at h1 h2 ⊢
  exact lt_trans h1 h2

theorem cursorFold_mem (us : List String) :
    ∀ mc, cursorFold mc us = mc ∨ ∃ u ∈ us, cursorFold mc us = some u := by
  induction us with
  | nil => intro mc; exact Or.inl rfl
  | cons u us ih =>
    intro mc
    have hstep : cursorFold mc (u :: us) = cursorFold (cursorMax mc u) us := rfl
    rcases ih (cursorMax mc u) with h | ⟨v, hv, h⟩
    · rw [hstep, h]
      unfold cursorMax
      cases mc with
      | none => exact Or.inr ⟨u, List.mem_cons_self u us, rfl⟩
      | some c =>
        dsimp only
        split
        · exact Or.inr ⟨u, List.mem_cons_self u us, rfl⟩
        · exact Or.inl rfl
    · exact Or.inr ⟨v, List.mem_cons_of_mem u hv, hstep.trans h⟩

theorem cursorFold_some_mono (us : List String) :
    ∀ c, ∃ c2, cursorFold (some c) us = some c2 ∧
      (c2 = c ∨ strLt c c2 = true) := by
  induction us with
  | nil => intro c; exact ⟨c, rfl, Or.inl rfl⟩
  | cons u us ih =>
    intro c
    have hstep : cursorFold (some c) (u :: us) =
      cursorFold (cursorMax (some c) u) us := rfl
    by_cases hlt : strLt c u = true
    · have hcm : cursorMax (some c) u = some u := by
        unfold cursorMax
        dsimp only
        rw [if_pos hlt]
      obtain ⟨c2, h2, hrel⟩ := ih u
      refine ⟨c2, ?_, ?_⟩
      · rw [hstep, hcm, h2]
      · rcases hrel with h | h
        · exact Or.inr (h ▸ hlt)
        · exact Or.inr (strLt_trans c u c2 hlt h)
    · have hcm : cursorMax (some c) u = some c := by
        unfold cursorMax
        dsimp only
        rw [if_neg hlt]
      obtain ⟨c2, h2, hrel⟩ := ih c
      exact ⟨c2, by rw [hstep, hcm, h2], hrel⟩

theorem jiraProcessOne_cursor_const (pjd : String → String)
    (pyhash : String → Int) (comments : String → List JiraRawComment)
    (limit : Option Nat) (s : JiraLoopState) (j : JiraIssue) :
    (jiraProcessOne pjd pyhash comments limit s j).state.db.cursor =
      s.db.cursor := by
  unfold jiraProcessOne
  dsimp only
  cases hup : upsert_issue s.db (jiraMapIssue pjd j) with
  | error e => rfl
  | ok res =>
    obtain ⟨k, ins, ch, db1⟩ := res
    have hfr := upsert_issue_ok_frame s.db (jiraMapIssue pjd j) k ins ch db1 hup
    dsimp only
    split
    · exact hfr.1
    · split
      · cases hk : j.key with
        | none => exact hfr.1
        | some kk =>
          dsimp only
          have hfr2 := upsertComments_frame k
            (List.map (jiraMapComment pjd pyhash kk) (comments kk)) db1
          cases hdr : upsertComments db1 k
              (List.map (jiraMapComment pjd pyhash kk) (comments kk)) with
          | mk db3 err =>
            rw [hdr] at hfr2
            cases err with
            | none => exact hfr2.1.trans hfr.1
            | some e => exact hfr2.1.trans hfr.1
      · exact hfr.1

theorem jiraLoop_cursor_const (pjd : String → String) (pyhash : String → Int)
    (comments : String → List JiraRawComment) (limit : Option Nat) :
    ∀ (stream : List JiraIssue) (s : JiraLoopState),
      (jiraLoop pjd pyhash comments limit stream s).1.db.cursor =
        s.db.cursor := by
  intro stream
  induction stream with
  | nil => intro s; rfl
  | cons j rest ih =>
    intro s
    have hstep := jiraProcessOne_cursor_const pjd pyhash comments limit s j
    show (match jiraProcessOne pjd pyhash comments limit s j with
      | .cont s1 => jiraLoop pjd pyhash comments limit rest s1
      | .stop s1 => (s1, none)
      | .fail s1 e => (s1, some e)).1.db.cursor = s.db.cursor
    cases hout : jiraProcessOne pjd pyhash comments limit s j with
    | cont s1 =>
      rw [hout] at hstep
      exact (ih s1).trans hstep
    | stop s1 =>
      rw [hout] at hstep
      exact hstep
    | fail s1 e =>
      rw [hout] at hstep
      exact hstep

theorem jiraMapComment_id_some (pjd : String → String)
    (pyhash : String → Int) (kk : String) (c : JiraRawComment) :
    ∃ i, (jiraMapComment pjd pyhash kk c).id = some i :=
  ⟨_, rfl⟩

theorem jiraProcessOne_fold (pjd : String → String) (pyhash : String → Int)
    (comments : String → List JiraRawComment) (s : JiraLoopState)
    (j : JiraIssue) (kk : String) (u : String) (hk : j.key = some kk)
    (hu : (jiraMapIssue pjd j).updated_at = some u) (hune : u ≠ "") :
    ∃ s1, jiraProcessOne pjd pyhash comments none s j = .cont s1 ∧
      s1.maxCursor = cursorMax s.maxCursor u := by
  obtain ⟨jkey, jf⟩ := j
  have hk2 : jkey = some kk := hk
  subst hk2
  obtain ⟨ins, ch, db1, hup⟩ :=
    upsert_issue_ok_of_number s.db (jiraMapIssue pjd ⟨some kk, jf⟩)
      (jiraNumberPart (some kk)) rfl
  have hids : ∀ c ∈ List.map (jiraMapComment pjd pyhash kk) (comments kk),
      ∃ i, c.id = some i := by
    intro c hc
    obtain ⟨c0, -, hc0⟩ := List.mem_map.mp hc
    exact hc0 ▸ jiraMapComment_id_some pjd pyhash kk c0
  have hok := upsertComments_ok (toString (jiraNumberPart (some kk)))
    (List.map (jiraMapComment pjd pyhash kk) (comments kk)) db1 hids
  unfold jiraProcessOne
  dsimp only
  rw [hup]
  dsimp only
  simp only [show limitHit none (s.processed + 1) = false from rfl,
    Bool.false_eq_true, if_false]
  rw [hu]
  rcases tsAdvance_cases s.maxCursor u hune with ⟨hadv, hmax⟩ | ⟨hadv, hmax⟩ <;>
    rw [hadv] <;> dsimp only <;> by_cases hic : (ins || ch) = true
  · rw [if_pos hic, hok]
    exact ⟨_, rfl, hmax.symm⟩
  · rw [if_neg hic]
    exact ⟨_, rfl, hmax.symm⟩
  · rw [if_pos hic, hok]
    exact ⟨_, rfl, hmax.symm⟩
  · rw [if_neg hic]
    exact ⟨_, rfl, hmax.symm⟩

theorem jiraLoop_fold (pjd : String → String) (pyhash : String → Int)
    (comments : String → List JiraRawComment) :
    ∀ (stream : List JiraIssue) (s : JiraLoopState),
      (∀ j ∈ stream, (∃ kk, j.key = some kk) ∧
        ∃ u, (jiraMapIssue pjd j).updated_at = some u ∧ u ≠ "") →
      (jiraLoop pjd pyhash comments none stream s).2 = none ∧
      (jiraLoop pjd pyhash comments none stream s).1.maxCursor =
        cursorFold s.maxCursor (stream.map (jUpdOf pjd)) := by
  intro stream
  induction stream with
  | nil => intro s _; exact ⟨rfl, rfl⟩
  | cons j rest ih =>
    intro s hgood
    obtain ⟨⟨kk, hk⟩, u, hu, hune⟩ := hgood j (List.mem_cons_self j rest)
    obtain ⟨s1, hstep, hmc1⟩ :=
      jiraProcessOne_fold pjd pyhash comments s j kk u hk hu hune
    have hloop : jiraLoop pjd pyhash comments none (j :: rest) s =
        jiraLoop pjd pyhash comments none rest s1 := by
      conv_lhs => rw [jiraLoop, hstep]
    rw [hloop]
    obtain ⟨he, hm⟩ := ih s1
      (fun x hx => hgood x (List.mem_cons_of_mem j hx))
    refine ⟨he, ?_⟩
    rw [hm, hmc1]
    have : jUpdOf pjd j = u := by
      unfold jUpdOf
      rw [hu]
      rfl
    rw [List.map_cons, this]
    rfl

theorem truthyStr_eq_some (o : Option String) (h : truthyStr o = true) :
    o = some (o.getD "") := by
  cases o with
  | none => exact absurd h (by simp [truthyStr])
  | some s => rfl

theorem githubIncrementalSync_cursor (stream : List RawIssue)
    (comments : Int → List RawComment) (db : DB)
    (hcomm : ∀ n, ∀ c ∈ comments n, ∃ i, c.id = some i)
    (hgood : ∀ r ∈ stream, (∃ nr, r.number = some nr) ∧
      ∃ u, r.updated_at = some u ∧ u ≠ "") :
    (githubIncrementalSync stream comments db none false .updated).error =
      none ∧
    (githubIncrementalSync stream comments db none false .updated).db.cursor =
      cursorFold db.cursor (stream.map updOf) ∧
    (githubIncrementalSync stream comments db none false
      .updated).lastUpdated = cursorFold db.cursor (stream.map updOf) := by
  have h := ghLoop_cursor_aligned comments hcomm stream
    ⟨db, get_last_issue_sync db, 0, []⟩ rfl hgood
  unfold githubIncrementalSync
  dsimp only
  exact ⟨h.1, h.2.1.trans h.2.2, h.2.2⟩

theorem jiraIncrementalSync_cursor (pjd : String → String)
    (pyhash : String → Int) (stream : List JiraIssue)
    (comments : String → List JiraRawComment) (db : DB)
    (hgood : ∀ j ∈ stream, (∃ kk, j.key = some kk) ∧
      ∃ u, (jiraMapIssue pjd j).updated_at = some u ∧ u ≠ "") :
    (jiraIncrementalSync pjd pyhash stream comments db none).error = none ∧
    (jiraIncrementalSync pjd pyhash stream comments db none).db.cursor =
      cursorFold db.cursor (stream.map (jUpdOf pjd)) := by
  have hfold := jiraLoop_fold pjd pyhash comments stream
    ⟨db, get_last_issue_sync db, 0, []⟩ hgood
  have hconst := jiraLoop_cursor_const pjd pyhash comments none stream
    ⟨db, get_last_issue_sync db, 0, []⟩
  unfold jiraIncrementalSync
  dsimp only
  cases hloop : jiraLoop pjd pyhash comments none stream
      ⟨db, get_last_issue_sync db, 0, []⟩ with
  | mk s1 err =>
    rw [hloop] at hfold hconst
    dsimp only at hfold hconst ⊢
    obtain ⟨herr, hmax⟩ := hfold
    have hg : get_last_issue_sync db = db.cursor := rfl
    rw [hg] at hmax
    subst herr
    dsimp only
    constructor
    · rfl
    · by_cases htru : truthyStr s1.maxCursor = true
      · rw [if_pos htru]
        unfold update_last_issue_sync
        dsimp only
        rw [← hmax]
        exact (truthyStr_eq_some s1.maxCursor htru).symm
      · rw [if_neg htru]
        rw [hconst]
        rcases cursorFold_mem (stream.map (jUpdOf pjd))
            db.cursor with hm | ⟨v, hv, hm⟩
        · exact hm.symm
        · exfalso
          rw [hmax, hm] at htru
          apply htru
          obtain ⟨j, hj, hjv⟩ := List.mem_map.mp hv
          obtain ⟨-, u, hu, hune⟩ := hgood j hj
          have : jUpdOf pjd j = u := by
            unfold jUpdOf
            rw [hu]
            rfl
          rw [← hjv, this]
          simp [truthyStr, hune]

/-- C1 (amended): in the GitHub variant (under the `updated` sort, without
force_all or a limit cutoff, on records carrying truthy `updated_at`) the
cursor is persisted immediately after each individual issue write that
advances the running maximum: after every processed record — hence after
every prefix of the processed stream — the stored cursor equals the
in-memory running maximum, which is the prior cursor joined with the
maximum `updated_at` seen so far.  The Jira variant does NOT satisfy the
claim: its loop never writes the cursor (the single persist is batched to
the end of the run), so after any prefix the stored cursor still holds the
value it had when the run began. -/
theorem cursor_persisted_per_advancing_write :
    (∀ (comments : Int → List RawComment) (s : GHLoopState) (r : RawIssue)
        (nr : Int) (u : String), r.number = some nr →
      r.updated_at = some u → u ≠ "" → s.db.cursor = s.maxCursor →
      (∀ c ∈ comments (r.number.getD 0), ∃ i, c.id = some i) →
      ∃ s', ghProcessOne comments .updated none s r = .cont s' ∧
        s'.db.cursor = s'.maxCursor ∧
        s'.maxCursor = cursorMax s.maxCursor u) ∧
    (∀ (comments : Int → List RawComment),
      (∀ n, ∀ c ∈ comments n, ∃ i, c.id = some i) →
      ∀ (stream : List RawIssue) (s : GHLoopState),
        s.db.cursor = s.maxCursor →
        (∀ r ∈ stream, (∃ nr, r.number = some nr) ∧
          ∃ u, r.updated_at = some u ∧ u ≠ "") →
        (ghLoop comments .updated none stream s).1.db.cursor =
          (ghLoop comments .updated none stream s).1.maxCursor ∧
        (ghLoop comments .updated none stream s).1.maxCursor =
          cursorFold s.maxCursor (stream.map updOf)) ∧
    (∀ (pjd : String → String) (pyhash : String → Int)
        (comments : String → List JiraRawComment) (limit : Option Nat)
        (stream : List JiraIssue) (s : JiraLoopState),
      (jiraLoop pjd pyhash comments limit stream s).1.db.cursor =
        s.db.cursor) := by
  refine ⟨?_, ?_, ?_⟩
  · intro comments s r nr u hn hu hune hal hcomm
    obtain ⟨s', h1, h2, h3, -⟩ :=
      ghProcessOne_aligned comments s r nr u hn hu hune hal hcomm
    exact ⟨s', h1, h2, h3⟩
  · intro comments hcomm stream s hal hgood
    obtain ⟨-, h2, h3⟩ := ghLoop_cursor_aligned comments hcomm stream s hal hgood
    exact ⟨h2, h3⟩
  · exact jiraLoop_cursor_const

theorem cursor_persisted_per_advancing_write_witness :
    (∃ s', ghProcessOne (fun _ => []) .updated none ⟨DB.empty, none, 0, []⟩
        sampleIssue = .cont s' ∧ s'.db.cursor = s'.maxCursor ∧
      s'.maxCursor = cursorMax none "2024-01-01T00:00:00Z") ∧
    (jiraLoop id (fun _ => 0) (fun _ => []) none [jiraSampleIssue]
      ⟨DB.empty, none, 0, []⟩).1.db.cursor = DB.empty.cursor :=
  ⟨cursor_persisted_per_advancing_write.1 (fun _ => [])
      ⟨DB.empty, none, 0, []⟩ sampleIssue 2 "2024-01-01T00:00:00Z" rfl rfl
      (by decide) rfl (fun c hc => absurd hc (by simp)),
    cursor_persisted_per_advancing_write.2.2 id (fun _ => 0) (fun _ => [])
      none [jiraSampleIssue] ⟨DB.empty, none, 0, []⟩⟩

/-- C1 counterexample: in a Jira run, immediately after the first issue is
written (the mid-run state reached after the prefix consisting of that
issue), the persisted cursor is still the prior cursor (`none`) even though
the issue carried timestamp `2024-01-01T00:00:00Z`, which the in-memory
maximum has adopted.  So the cursor is not persisted after each individual
issue write. -/
theorem jira_cursor_not_persisted_mid_run :
    ∃ s1, jiraProcessOne id (fun _ => 0) (fun _ => []) none
        ⟨DB.empty, none, 0, []⟩ jiraSampleIssue = .cont s1 ∧
      s1.db.issues.length = 1 ∧
      (jiraMapIssue id jiraSampleIssue).updated_at =
        some "2024-01-01T00:00:00Z" ∧
      s1.maxCursor = some "2024-01-01T00:00:00Z" ∧
      s1.db.cursor = none := by
  refine ⟨_, rfl, ?_, ?_, ?_, ?_⟩ <;> decide

/-- C2 (amended): for every run of `incremental_sync` that is not cut short
by a caller limit and not forced to restart (GitHub: `limit=None`,
`force_all=False`, `updated` sort; Jira: `limit=None`), over streams of
well-formed records with truthy update timestamps, the run succeeds, the
persisted cursor afterwards equals the prior cursor joined with the maximum
`updated_at` among all processed issues (lexical string comparison), and it
is ≥ the prior cursor.  (A run cut off by the limit omits the terminating
issue from the join — see the counterexample.) -/
theorem incremental_sync_cursor_monotone_max :
    (∀ (stream : List RawIssue) (comments : Int → List RawComment) (db : DB),
      (∀ n, ∀ c ∈ comments n, ∃ i, c.id = some i) →
      (∀ r ∈ stream, (∃ nr, r.number = some nr) ∧
        ∃ u, r.updated_at = some u ∧ u ≠ "") →
      (githubIncrementalSync stream comments db none false .updated).error =
        none ∧
      (githubIncrementalSync stream comments db none false
        .updated).db.cursor = cursorFold db.cursor (stream.map updOf) ∧
      (∀ c, db.cursor = some c →
        ∃ c2, (githubIncrementalSync stream comments db none false
          .updated).db.cursor = some c2 ∧ (c2 = c ∨ strLt c c2 = true))) ∧
    (∀ (pjd : String → String) (pyhash : String → Int)
        (stream : List JiraIssue) (comments : String → List JiraRawComment)
        (db : DB),
      (∀ j ∈ stream, (∃ kk, j.key = some kk) ∧
        ∃ u, (jiraMapIssue pjd j).updated_at = some u ∧ u ≠ "") →
      (jiraIncrementalSync pjd pyhash stream comments db none).error = none ∧
      (jiraIncrementalSync pjd pyhash stream comments db none).db.cursor =
        cursorFold db.cursor (stream.map (jUpdOf pjd)) ∧
      (∀ c, db.cursor = some c →
        ∃ c2, (jiraIncrementalSync pjd pyhash stream comments
          db none).db.cursor = some c2 ∧ (c2 = c ∨ strLt c c2 = true))) := by
  constructor
  · intro stream comments db hcomm hgood
    obtain ⟨h1, h2, -⟩ :=
      githubIncrementalSync_cursor stream comments db hcomm hgood
    refine ⟨h1, h2, ?_⟩
    intro c hc
    obtain ⟨c2, hf, hrel⟩ := cursorFold_some_mono (stream.map updOf) c
    exact ⟨c2, by rw [h2, hc, hf], hrel⟩
  · intro pjd pyhash stream comments db hgood
    obtain ⟨h1, h2⟩ :=
      jiraIncrementalSync_cursor pjd pyhash stream comments db hgood
    refine ⟨h1, h2, ?_⟩
    intro c hc
    obtain ⟨c2, hf, hrel⟩ := cursorFold_some_mono (stream.map (jUpdOf pjd)) c
    exact ⟨c2, by rw [h2, hc, hf], hrel⟩

theorem incremental_sync_cursor_monotone_max_witness :
    ((githubIncrementalSync [sampleIssue] (fun _ => []) dbWithCursor none
        false .updated).error = none ∧
      (githubIncrementalSync [sampleIssue] (fun _ => []) dbWithCursor none
        false .updated).db.cursor =
        cursorFold dbWithCursor.cursor ([sampleIssue].map updOf) ∧
      (∀ c, dbWithCursor.cursor = some c →
        ∃ c2, (githubIncrementalSync [sampleIssue] (fun _ => []) dbWithCursor
          none false .updated).db.cursor = some c2 ∧
          (c2 = c ∨ strLt c c2 = true))) ∧
    ((jiraIncrementalSync id (fun _ => 0) [jiraSampleIssue] (fun _ => [])
        DB.empty none).error = none ∧
      (jiraIncrementalSync id (fun _ => 0) [jiraSampleIssue] (fun _ => [])
        DB.empty none).db.cursor =
        cursorFold DB.empty.cursor ([jiraSampleIssue].map (jUpdOf id)) ∧
      (∀ c, DB.empty.cursor = some c →
        ∃ c2, (jiraIncrementalSync id (fun _ => 0) [jiraSampleIssue]
          (fun _ => []) DB.empty none).db.cursor = some c2 ∧
          (c2 = c ∨ strLt c c2 = true))) :=
  ⟨incremental_sync_cursor_monotone_max.1 [sampleIssue] (fun _ => [])
      dbWithCursor (fun n c hc => absurd hc (by simp))
      (by intro r hr; rw [List.mem_singleton] at hr; subst hr
          exact ⟨⟨2, rfl⟩, "2024-01-01T00:00:00Z", rfl, by decide⟩),
    incremental_sync_cursor_monotone_max.2 id (fun _ => 0) [jiraSampleIssue]
      (fun _ => []) DB.empty
      (by intro j hj; rw [List.mem_singleton] at hj; subst hj
          exact ⟨⟨"PROJ-1", rfl⟩, "2024-01-01T00:00:00Z", by decide,
            by decide⟩)⟩

/-- C2 counterexample: with `limit=1` the GitHub run breaks after counting
the first processed issue but before the cursor-advance step, so the run
reports `processed_issues = 1` while the persisted cursor stays `none`
rather than the processed issue's `updated_at`. -/
theorem github_limit_cutoff_skips_cursor :
    (githubIncrementalSync [sampleIssue] (fun _ => []) DB.empty (some 1)
      false .updated).processed = 1 ∧
    sampleIssue.updated_at = some "2024-01-01T00:00:00Z" ∧
    (githubIncrementalSync [sampleIssue] (fun _ => []) DB.empty (some 1)
      false .updated).db.cursor = none := by
  refine ⟨?_, ?_, ?_⟩ <;> decide

/-- C7 (amended): in the GitHub variant a processed issue's comments are
drained exactly when the upsert reported inserted-or-changed AND the
provider-reported comment count is non-zero, provided the caller limit did
not fire on that issue; in the Jira variant the comment count is not
consulted: comments are drained exactly when the upsert reported
inserted-or-changed (again unless the limit fired).  When the limit fires
the loop stops before any comment fetch.  In both variants an issue that is
neither new nor changed never triggers a comment fetch. -/
theorem comment_fetch_condition :
    (∀ (comments : Int → List RawComment) (sortby : Sortby)
        (limit : Option Nat) (s : GHLoopState) (r : RawIssue) (k : String)
        (ins ch : Bool) (db1 : DB),
      upsert_issue s.db r = .ok (k, ins, ch, db1) →
      limitHit limit (s.processed + 1) = false →
      (∀ c ∈ comments (r.number.getD 0), ∃ i, c.id = some i) →
      ∃ s', ghProcessOne comments sortby limit s r = .cont s' ∧
        s'.fetched = (if (r.comments.getD 0 != 0) && (ins || ch)
          then s.fetched ++ [r.number.getD 0] else s.fetched)) ∧
    (∀ (comments : Int → List RawComment) (sortby : Sortby)
        (limit : Option Nat) (s : GHLoopState) (r : RawIssue) (k : String)
        (ins ch : Bool) (db1 : DB),
      upsert_issue s.db r = .ok (k, ins, ch, db1) →
      limitHit limit (s.processed + 1) = true →
      ghProcessOne comments sortby limit s r =
        .stop { s with db := db1, processed := s.processed + 1 }) ∧
    (∀ (pjd : String → String) (pyhash : String → Int)
        (comments : String → List JiraRawComment) (limit : Option Nat)
        (s : JiraLoopState) (j : JiraIssue) (kk : String) (k : String)
        (ins ch : Bool) (db1 : DB), j.key = some kk →
      upsert_issue s.db (jiraMapIssue pjd j) = .ok (k, ins, ch, db1) →
      limitHit limit (s.processed + 1) = false →
      ∃ s', jiraProcessOne pjd pyhash comments limit s j = .cont s' ∧
        s'.fetched = (if ins || ch then s.fetched ++ [kk] else s.fetched)) ∧
    (∀ (pjd : String → String) (pyhash : String → Int)
        (comments : String → List JiraRawComment) (limit : Option Nat)
        (s : JiraLoopState) (j : JiraIssue) (k : String)
        (ins ch : Bool) (db1 : DB),
      upsert_issue s.db (jiraMapIssue pjd j) = .ok (k, ins, ch, db1) →
      limitHit limit (s.processed + 1) = true →
      jiraProcessOne pjd pyhash comments limit s j =
        .stop { s with db := db1, processed := s.processed + 1 }) := by
  refine ⟨?_, ?_, ?_, ?_⟩
  · intro comments sortby limit s r k ins ch db1 hup hlim hcomm
    have hok := upsertComments_ok k (comments (r.number.getD 0))
    unfold ghProcessOne
    rw [hup]
    dsimp only
    simp only [hlim, Bool.false_eq_true, if_false]
    cases sortby with
    | updated =>
      cases htsa : tsAdvance s.maxCursor (pyOrStr r.updated_at r.created_at) with
      | some t =>
        by_cases hfetch : (r.comments.getD 0 != 0 && (ins || ch)) = true
        · rw [if_pos hfetch, hok (update_last_issue_sync db1 t) hcomm]
          exact ⟨_, rfl, by rw [if_pos hfetch]⟩
        · rw [if_neg hfetch]
          refine ⟨_, rfl, ?_⟩
          rw [if_neg hfetch]
      | none =>
        by_cases hfetch : (r.comments.getD 0 != 0 && (ins || ch)) = true
        · rw [if_pos hfetch, hok db1 hcomm]
          exact ⟨_, rfl, by rw [if_pos hfetch]⟩
        · rw [if_neg hfetch]
          refine ⟨_, rfl, ?_⟩
          rw [if_neg hfetch]
    | created =>
      dsimp only
      rw [show tsAdvance s.maxCursor none = none from rfl]
      dsimp only
      by_cases hfetch : (r.comments.getD 0 != 0 && (ins || ch)) = true
      · rw [if_pos hfetch, hok db1 hcomm]
        exact ⟨_, rfl, by rw [if_pos hfetch]⟩
      · rw [if_neg hfetch]
        refine ⟨_, rfl, ?_⟩
        rw [if_neg hfetch]
  · intro comments sortby limit s r k ins ch db1 hup hlim
    unfold ghProcessOne
    rw [hup]
    dsimp only
    rw [if_pos hlim]
  · intro pjd pyhash comments limit s j kk k ins ch db1 hk hup hlim
    obtain ⟨jkey, jf⟩ := j
    have hk2 : jkey = some kk := hk
    subst hk2
    have hids : ∀ c ∈ List.map (jiraMapComment pjd pyhash kk) (comments kk),
        ∃ i, c.id = some i := by
      intro c hc
      obtain ⟨c0, -, hc0⟩ := List.mem_map.mp hc
      exact hc0 ▸ jiraMapComment_id_some pjd pyhash kk c0
    have hok := upsertComments_ok k
      (List.map (jiraMapComment pjd pyhash kk) (comments kk)) db1 hids
    unfold jiraProcessOne
    dsimp only
    rw [hup]
    dsimp only
    simp only [hlim, Bool.false_eq_true, if_false]
    cases htsa : tsAdvance s.maxCursor
        (jiraMapIssue pjd ⟨some kk, jf⟩).updated_at with
    | some t =>
      by_cases hic : (ins || ch) = true
      · rw [if_pos hic, hok]
        exact ⟨_, rfl, by rw [if_pos hic]⟩
      · rw [if_neg hic]
        refine ⟨_, rfl, ?_⟩
        rw [if_neg hic]
    | none =>
      by_cases hic : (ins || ch) = true
      · rw [if_pos hic, hok]
        exact ⟨_, rfl, by rw [if_pos hic]⟩
      · rw [if_neg hic]
        refine ⟨_, rfl, ?_⟩
        rw [if_neg hic]
  · intro pjd pyhash comments limit s j k ins ch db1 hup hlim
    unfold jiraProcessOne
    dsimp only
    rw [hup]
    dsimp only
    rw [if_pos hlim]

theorem comment_fetch_condition_witness :
    ∃ s', ghProcessOne (fun _ => []) .updated none ⟨DB.empty, none, 0, []⟩
        sampleIssue = .cont s' ∧
      s'.fetched = (if (sampleIssue.comments.getD 0 != 0) && (true || true)
        then ([] : List Int) ++ [sampleIssue.number.getD 0]
        else ([] : List Int)) :=
  comment_fetch_condition.1 (fun _ => []) .updated none
    ⟨DB.empty, none, 0, []⟩ sampleIssue (toString (2 : Int)) true true
    { DB.empty with issues := [issueRowOf (toString (2 : Int)) 2 sampleIssue] }
    rfl rfl (fun c hc => absurd hc (by simp))

/-- C7 counterexample: a new Jira issue whose mapped record reports a
comment count of zero still has its comments drained (the provider's
comment stream for its key is requested), because the Jira loop tests only
`inserted or changed` and never the comment count. -/
theorem jira_fetches_comments_with_zero_count :
    (jiraMapIssue id jiraSampleIssue).comments = some 0 ∧
    (jiraIncrementalSync id (fun _ => 0) [jiraSampleIssue] (fun _ => [])
      DB.empty none).fetched = ["PROJ-1"] := by
  constructor <;> decide

theorem listIssuesPages_head {α : Type} (pages : List (GHPage α))
    (url : String) (p : Bool) :
    (listIssuesPages pages url p).1 = [] ∨
    ∃ tail, (listIssuesPages pages url p).1 = .request url p :: tail := by
  cases pages with
  | nil => exact Or.inl rfl
  | cons pg rest =>
    right
    unfold listIssuesPages
    split
    · exact ⟨_, rfl⟩
    · split
      · exact ⟨_, rfl⟩
      · split
        · exact ⟨_, rfl⟩
        · split
          · exact ⟨_, rfl⟩
          · exact ⟨_, rfl⟩

theorem listCommentsPages_head {α : Type} (pages : List (GHPage α))
    (url : String) (p : Bool) :
    (listCommentsPages pages url p).1 = [] ∨
    ∃ tail, (listCommentsPages pages url p).1 = .request url p :: tail := by
  cases pages with
  | nil => exact Or.inl rfl
  | cons pg rest =>
    right
    unfold listCommentsPages
    split
    · exact ⟨_, rfl⟩
    · split
      · exact ⟨_, rfl⟩
      · split
        · exact ⟨_, rfl⟩
        · split
          · exact ⟨_, rfl⟩
          · split
            · exact ⟨_, rfl⟩
            · exact ⟨_, rfl⟩

theorem listIssuesPages_sleep_shape {α : Type} :
    ∀ (pages : List (GHPage α)) (url : String) (p : Bool),
      (∀ n, ((listIssuesPages pages url p).1)[0]? ≠ some (.sleep n)) ∧
      (∀ i n, ((listIssuesPages pages url p).1)[i + 1]? = some (.sleep n) →
        n = 3600 ∧ ∃ u q,
          ((listIssuesPages pages url p).1)[i]? = some (.request u q) ∧
          (((listIssuesPages pages url p).1)[i + 2]? = none ∨
            ((listIssuesPages pages url p).1)[i + 2]? =
              some (.request u q))) := by
  intro pages
  induction pages with
  | nil =>
    intro url p
    constructor
    · intro n
      simp [listIssuesPages]
    · intro i n h
      simp [listIssuesPages] at h
  | cons pg rest ih =>
    intro url p
    by_cases h403 : pg.status = 403
    · have htr : (listIssuesPages (pg :: rest) url p).1 =
          .request url p :: .sleep 3600 :: (listIssuesPages rest url p).1 := by
        conv_lhs => rw [listIssuesPages]
        rw [if_pos h403]
      rw [htr]
      constructor
      · intro n
        simp
      · intro i n h
        match i with
        | 0 =>
          rw [List.getElem?_cons_succ, List.getElem?_cons_zero] at h
          rw [Option.some.injEq, GHEvent.sleep.injEq] at h
          refine ⟨h.symm, url, p, by simp, ?_⟩
          rw [List.getElem?_cons_succ, List.getElem?_cons_succ]
          rcases listIssuesPages_head rest url p with he | ⟨t2, ht2⟩
          · rw [he]
            exact Or.inl rfl
          · rw [ht2]
            exact Or.inr (by simp)
        | 1 =>
          rw [List.getElem?_cons_succ, List.getElem?_cons_succ] at h
          exact absurd h ((ih url p).1 n)
        | (k + 2) =>
          rw [List.getElem?_cons_succ, List.getElem?_cons_succ] at h
          obtain ⟨hn, u, q, hreq, hnext⟩ := (ih url p).2 k n h
          refine ⟨hn, u, q, ?_, ?_⟩
          · rw [List.getElem?_cons_succ, List.getElem?_cons_succ]
            exact hreq
          · rw [List.getElem?_cons_succ, List.getElem?_cons_succ]
            exact hnext
    · by_cases h200 : pg.status = 200
      · by_cases hemp : pg.body.isEmpty = true
        · have htr : (listIssuesPages (pg :: rest) url p).1 =
              [.request url p] := by
            conv_lhs => rw [listIssuesPages]
            rw [if_neg h403, if_neg (by simp [h200]), if_pos hemp]
          rw [htr]
          constructor
          · intro n
            simp
          · intro i n h
            rw [List.getElem?_cons_succ] at h
            simp at h
        · cases hlink : pg.linkNext with
          | none =>
            have htr : (listIssuesPages (pg :: rest) url p).1 =
                [.request url p, .politeSleep] := by
              conv_lhs => rw [listIssuesPages]
              rw [if_neg h403, if_neg (by simp [h200]), if_neg hemp, hlink]
            rw [htr]
            constructor
            · intro n
              simp
            · intro i n h
              match i with
              | 0 =>
                rw [List.getElem?_cons_succ, List.getElem?_cons_zero] at h
                simp at h
              | (k + 1) =>
                rw [List.getElem?_cons_succ, List.getElem?_cons_succ] at h
                simp at h
          | some u2 =>
            have htr : (listIssuesPages (pg :: rest) url p).1 =
                .request url p :: .politeSleep ::
                  (listIssuesPages rest u2 false).1 := by
              conv_lhs => rw [listIssuesPages]
              rw [if_neg h403, if_neg (by simp [h200]), if_neg hemp, hlink]
            rw [htr]
            constructor
            · intro n
              simp
            · intro i n h
              match i with
              | 0 =>
                rw [List.getElem?_cons_succ, List.getElem?_cons_zero] at h
                simp at h
              | 1 =>
                rw [List.getElem?_cons_succ, List.getElem?_cons_succ] at h
                exact absurd h ((ih u2 false).1 n)
              | (k + 2) =>
                rw [List.getElem?_cons_succ, List.getElem?_cons_succ] at h
                obtain ⟨hn, u, q, hreq, hnext⟩ := (ih u2 false).2 k n h
                refine ⟨hn, u, q, ?_, ?_⟩
                · rw [List.getElem?_cons_succ, List.getElem?_cons_succ]
                  exact hreq
                · rw [List.getElem?_cons_succ, List.getElem?_cons_succ]
                  exact hnext
      · have htr : (listIssuesPages (pg :: rest) url p).1 =
            [.request url p] := by
          conv_lhs => rw [listIssuesPages]
          rw [if_neg h403, if_pos (by simp [h200])]
        rw [htr]
        constructor
        · intro n
          simp
        · intro i n h
          rw [List.getElem?_cons_succ] at h
          simp at h

theorem listCommentsPages_sleep_shape {α : Type} :
    ∀ (pages : List (GHPage α)) (url : String) (p : Bool),
      (∀ n, ((listCommentsPages pages url p).1)[0]? ≠ some (.sleep n)) ∧
      (∀ i n, ((listCommentsPages pages url p).1)[i + 1]? = some (.sleep n) →
        (n = 3600 ∨ n = 10) ∧ ∃ u q,
          ((listCommentsPages pages url p).1)[i]? = some (.request u q) ∧
          (((listCommentsPages pages url p).1)[i + 2]? = none ∨
            ((listCommentsPages pages url p).1)[i + 2]? =
              some (.request u q))) := by
  intro pages
  induction pages with
  | nil =>
    intro url p
    constructor
    · intro n
      simp [listCommentsPages]
    · intro i n h
      simp [listCommentsPages] at h
  | cons pg rest ih =>
    intro url p
    by_cases h403 : pg.status = 403
    · have htr : (listCommentsPages (pg :: rest) url p).1 =
          .request url p :: .sleep 3600 ::
            (listCommentsPages rest url p).1 := by
        conv_lhs => rw [listCommentsPages]
        rw [if_pos h403]
      rw [htr]
      constructor
      · intro n
        simp
      · intro i n h
        match i with
        | 0 =>
          rw [List.getElem?_cons_succ, List.getElem?_cons_zero] at h
          rw [Option.some.injEq, GHEvent.sleep.injEq] at h
          refine ⟨Or.inl h.symm, url, p, by simp, ?_⟩
          rw [List.getElem?_cons_succ, List.getElem?_cons_succ]
          rcases listCommentsPages_head rest url p with he | ⟨t2, ht2⟩
          · rw [he]
            exact Or.inl rfl
          · rw [ht2]
            exact Or.inr (by simp)
        | 1 =>
          rw [List.getElem?_cons_succ, List.getElem?_cons_succ] at h
          exact absurd h ((ih url p).1 n)
        | (k + 2) =>
          rw [List.getElem?_cons_succ, List.getElem?_cons_succ] at h
          obtain ⟨hn, u, q, hreq, hnext⟩ := (ih url p).2 k n h
          refine ⟨hn, u, q, ?_, ?_⟩
          · rw [List.getElem?_cons_succ, List.getElem?_cons_succ]
            exact hreq
          · rw [List.getElem?_cons_succ, List.getElem?_cons_succ]
            exact hnext
    · by_cases h404 : pg.status = 404
      · have htr : (listCommentsPages (pg :: rest) url p).1 =
            .request url p :: .sleep 10 ::
              (listCommentsPages rest url p).1 := by
          conv_lhs => rw [listCommentsPages]
          rw [if_neg h403, if_pos h404]
        rw [htr]
        constructor
        · intro n
          simp
        · intro i n h
          match i with
          | 0 =>
            rw [List.getElem?_cons_succ, List.getElem?_cons_zero] at h
            rw [Option.some.injEq, GHEvent.sleep.injEq] at h
            refine ⟨Or.inr h.symm, url, p, by simp, ?_⟩
            rw [List.getElem?_cons_succ, List.getElem?_cons_succ]
            rcases listCommentsPages_head rest url p with he | ⟨t2, ht2⟩
            · rw [he]
              exact Or.inl rfl
            · rw [ht2]
              exact Or.inr (by simp)
          | 1 =>
            rw [List.getElem?_cons_succ, List.getElem?_cons_succ] at h
            exact absurd h ((ih url p).1 n)
          | (k + 2) =>
            rw [List.getElem?_cons_succ, List.getElem?_cons_succ] at h
            obtain ⟨hn, u, q, hreq, hnext⟩ := (ih url p).2 k n h
            refine ⟨hn, u, q, ?_, ?_⟩
            · rw [List.getElem?_cons_succ, List.getElem?_cons_succ]
              exact hreq
            · rw [List.getElem?_cons_succ, List.getElem?_cons_succ]
              exact hnext
      · by_cases h200 : pg.status = 200
        · by_cases hemp : pg.body.isEmpty = true
          · have htr : (listCommentsPages (pg :: rest) url p).1 =
                [.request url p] := by
              conv_lhs => rw [listCommentsPages]
              rw [if_neg h403, if_neg h404, if_neg (by simp [h200]),
                if_pos hemp]
            rw [htr]
            constructor
            · intro n
              simp
            · intro i n h
              rw [List.getElem?_cons_succ] at h
              simp at h
          · cases hlink : pg.linkNext with
            | none =>
              have htr : (listCommentsPages (pg :: rest) url p).1 =
                  [.request url p, .politeSleep] := by
                conv_lhs => rw [listCommentsPages]
                rw [if_neg h403, if_neg h404, if_neg (by simp [h200]),
                  if_neg hemp, hlink]
              rw [htr]
              constructor
              · intro n
                simp
              · intro i n h
                match i with
                | 0 =>
                  rw [List.getElem?_cons_succ, List.getElem?_cons_zero] at h
                  simp at h
                | (k + 1) =>
                  rw [List.getElem?_cons_succ, List.getElem?_cons_succ] at h
                  simp at h
            | some u2 =>
              have htr : (listCommentsPages (pg :: rest) url p).1 =
                  .request url p :: .politeSleep ::
                    (listCommentsPages rest u2 false).1 := by
                conv_lhs => rw [listCommentsPages]
                rw [if_neg h403, if_neg h404, if_neg (by simp [h200]),
                  if_neg hemp, hlink]
              rw [htr]
              constructor
              · intro n
                simp
              · intro i n h
                match i with
                | 0 =>
                  rw [List.getElem?_cons_succ, List.getElem?_cons_zero] at h
                  simp at h
                | 1 =>
                  rw [List.getElem?_cons_succ, List.getElem?_cons_succ] at h
                  exact absurd h ((ih u2 false).1 n)
                | (k + 2) =>
                  rw [List.getElem?_cons_succ, List.getElem?_cons_succ] at h
                  obtain ⟨hn, u, q, hreq, hnext⟩ := (ih u2 false).2 k n h
                  refine ⟨hn, u, q, ?_, ?_⟩
                  · rw [List.getElem?_cons_succ, List.getElem?_cons_succ]
                    exact hreq
                  · rw [List.getElem?_cons_succ, List.getElem?_cons_succ]
                    exact hnext
        · have htr : (listCommentsPages (pg :: rest) url p).1 =
              [.request url p] := by
            conv_lhs => rw [listCommentsPages]
            rw [if_neg h403, if_neg h404, if_pos (by simp [h200])]
          rw [htr]
          constructor
          · intro n
            simp
          · intro i n h
            rw [List.getElem?_cons_succ] at h
            simp at h

theorem listIssuesPages_fatal {α : Type} :
    ∀ (pages : List (GHPage α)) (url : String) (p : Bool) (s : Nat),
      (listIssuesPages pages url p).2 = .fatal s →
      s ≠ 200 ∧ s ≠ 403 ∧
      ∃ u q, ((listIssuesPages pages url p).1).getLast? =
        some (.request u q) := by
  intro pages
  induction pages with
  | nil =>
    intro url p s h
    exact absurd h (by simp [listIssuesPages])
  | cons pg rest ih =>
    intro url p s
    by_cases h403 : pg.status = 403
    · have heq : listIssuesPages (pg :: rest) url p =
          (.request url p :: .sleep 3600 :: (listIssuesPages rest url p).1,
            (listIssuesPages rest url p).2) := by
        conv_lhs => rw [listIssuesPages]
        rw [if_pos h403]
      rw [heq]
      intro h
      dsimp only at h
      obtain ⟨hs1, hs2, u, q, hlast⟩ := ih url p s h
      refine ⟨hs1, hs2, u, q, ?_⟩
      dsimp only
      cases htail : (listIssuesPages rest url p).1 with
      | nil => rw [htail] at hlast; exact absurd hlast (by simp)
      | cons c t =>
        rw [htail] at hlast
        rw [List.getLast?_cons_cons, List.getLast?_cons_cons]
        exact hlast
    · by_cases h200 : pg.status = 200
      · by_cases hemp : pg.body.isEmpty = true
        · have heq : listIssuesPages (pg :: rest) url p =
              ([.request url p], .ok []) := by
            conv_lhs => rw [listIssuesPages]
            rw [if_neg h403, if_neg (by simp [h200]), if_pos hemp]
          rw [heq]
          intro h
          exact absurd h (by simp)
        · cases hlink : pg.linkNext with
          | none =>
            have heq : listIssuesPages (pg :: rest) url p =
                ([.request url p, .politeSleep], .ok pg.body) := by
              conv_lhs => rw [listIssuesPages]
              rw [if_neg h403, if_neg (by simp [h200]), if_neg hemp, hlink]
            rw [heq]
            intro h
            exact absurd h (by simp)
          | some u2 =>
            have heq : listIssuesPages (pg :: rest) url p =
                (.request url p :: .politeSleep ::
                  (listIssuesPages rest u2 false).1,
                  .consItems pg.body (listIssuesPages rest u2 false).2) := by
              conv_lhs => rw [listIssuesPages]
              rw [if_neg h403, if_neg (by simp [h200]), if_neg hemp, hlink]
            rw [heq]
            intro h
            dsimp only at h
            have hrec : (listIssuesPages rest u2 false).2 = .fatal s := by
              cases hr : (listIssuesPages rest u2 false).2 with
              | ok items => rw [hr] at h; exact absurd h (by simp [PageOutcome.consItems])
              | fatal s2 =>
                rw [hr] at h
                simp [PageOutcome.consItems] at h
                rw [h]
              | exhausted items =>
                rw [hr] at h; exact absurd h (by simp [PageOutcome.consItems])
            obtain ⟨hs1, hs2, u, q, hlast⟩ := ih u2 false s hrec
            refine ⟨hs1, hs2, u, q, ?_⟩
            dsimp only
            cases htail : (listIssuesPages rest u2 false).1 with
            | nil => rw [htail] at hlast; exact absurd hlast (by simp)
            | cons c t =>
              rw [htail] at hlast
              rw [List.getLast?_cons_cons, List.getLast?_cons_cons]
              exact hlast
      · have heq : listIssuesPages (pg :: rest) url p =
            ([.request url p], .fatal pg.status) := by
          conv_lhs => rw [listIssuesPages]
          rw [if_neg h403, if_pos (by simp [h200])]
        rw [heq]
        intro h
        dsimp only at h
        rw [PageOutcome.fatal.injEq] at h
        subst h
        exact ⟨h200, h403, url, p, by simp⟩

theorem listCommentsPages_fatal {α : Type} :
    ∀ (pages : List (GHPage α)) (url : String) (p : Bool) (s : Nat),
      (listCommentsPages pages url p).2 = .fatal s →
      s ≠ 200 ∧ s ≠ 403 ∧ s ≠ 404 ∧
      ∃ u q, ((listCommentsPages pages url p).1).getLast? =
        some (.request u q) := by
  intro pages
  induction pages with
  | nil =>
    intro url p s h
    exact absurd h (by simp [listCommentsPages])
  | cons pg rest ih =>
    intro url p s
    by_cases h403 : pg.status = 403
    · have heq : listCommentsPages (pg :: rest) url p =
          (.request url p :: .sleep 3600 :: (listCommentsPages rest url p).1,
            (listCommentsPages rest url p).2) := by
        conv_lhs => rw [listCommentsPages]
        rw [if_pos h403]
      rw [heq]
      intro h
      dsimp only at h
      obtain ⟨hs1, hs2, hs3, u, q, hlast⟩ := ih url p s h
      refine ⟨hs1, hs2, hs3, u, q, ?_⟩
      dsimp only
      cases htail : (listCommentsPages rest url p).1 with
      | nil => rw [htail] at hlast; exact absurd hlast (by simp)
      | cons c t =>
        rw [htail] at hlast
        rw [List.getLast?_cons_cons, List.getLast?_cons_cons]
        exact hlast
    · by_cases h404 : pg.status = 404
      · have heq : listCommentsPages (pg :: rest) url p =
            (.request url p :: .sleep 10 :: (listCommentsPages rest url p).1,
              (listCommentsPages rest url p).2) := by
          conv_lhs => rw [listCommentsPages]
          rw [if_neg h403, if_pos h404]
        rw [heq]
        intro h
        dsimp only at h
        obtain ⟨hs1, hs2, hs3, u, q, hlast⟩ := ih url p s h
        refine ⟨hs1, hs2, hs3, u, q, ?_⟩
        dsimp only
        cases htail : (listCommentsPages rest url p).1 with
        | nil => rw [htail] at hlast; exact absurd hlast (by simp)
        | cons c t =>
          rw [htail] at hlast
          rw [List.getLast?_cons_cons, List.getLast?_cons_cons]
          exact hlast
      · by_cases h200 : pg.status = 200
        · by_cases hemp : pg.body.isEmpty = true
          · have heq : listCommentsPages (pg :: rest) url p =
                ([.request url p], .ok []) := by
              conv_lhs => rw [listCommentsPages]
              rw [if_neg h403, if_neg h404, if_neg (by simp [h200]),
                if_pos hemp]
            rw [heq]
            intro h
            exact absurd h (by simp)
          · cases hlink : pg.linkNext with
            | none =>
              have heq : listCommentsPages (pg :: rest) url p =
                  ([.request url p, .politeSleep], .ok pg.body) := by
                conv_lhs => rw [listCommentsPages]
                rw [if_neg h403, if_neg h404, if_neg (by simp [h200]),
                  if_neg hemp, hlink]
              rw [heq]
              intro h
              exact absurd h (by simp)
            | some u2 =>
              have heq : listCommentsPages (pg :: rest) url p =
                  (.request url p :: .politeSleep ::
                    (listCommentsPages rest u2 false).1,
                    .consItems pg.body (listCommentsPages rest u2 false).2) := by
                conv_lhs => rw [listCommentsPages]
                rw [if_neg h403, if_neg h404, if_neg (by simp [h200]),
                  if_neg hemp, hlink]
              rw [heq]
              intro h
              dsimp only at h
              have hrec : (listCommentsPages rest u2 false).2 = .fatal s := by
                cases hr : (listCommentsPages rest u2 false).2 with
                | ok items =>
                  rw [hr] at h
                  exact absurd h (by simp [PageOutcome.consItems])
                | fatal s2 =>
                  rw [hr] at h
                  simp [PageOutcome.consItems] at h
                  rw [h]
                | exhausted items =>
                  rw [hr] at h
                  exact absurd h (by simp [PageOutcome.consItems])
              obtain ⟨hs1, hs2, hs3, u, q, hlast⟩ := ih u2 false s hrec
              refine ⟨hs1, hs2, hs3, u, q, ?_⟩
              dsimp only
              cases htail : (listCommentsPages rest u2 false).1 with
              | nil => rw [htail] at hlast; exact absurd hlast (by simp)
              | cons c t =>
                rw [htail] at hlast
                rw [List.getLast?_cons_cons, List.getLast?_cons_cons]
                exact hlast
        · have heq : listCommentsPages (pg :: rest) url p =
              ([.request url p], .fatal pg.status) := by
            conv_lhs => rw [listCommentsPages]
            rw [if_neg h403, if_neg h404, if_pos (by simp [h200])]
          rw [heq]
          intro h
          dsimp only at h
          rw [PageOutcome.fatal.injEq] at h
          subst h
          exact ⟨h200, h403, h404, url, p, by simp⟩

/-- C9 (confirmed): during GitHub paging, a 403 (rate-limit) response causes
a fixed 3600-second backoff after which the very same page is re-requested
unchanged (same URL, params still attached exactly when they were before); a
404 while listing a specific issue's comments causes a fixed 10-second delay
followed by a retry of the same request; every other non-success status
raises an error that aborts the listing with no retry (the request that
received it is the last event of the trace).  Globally, every fixed sleep in
an issue-listing trace is 3600 s — and in a comment-listing trace 3600 s or
10 s — and is immediately preceded by a request and immediately followed
(when anything follows) by an identical request; a fatal outcome carries a
status that is neither 200 nor 403 (nor, for comments, 404). -/
theorem github_paging_error_policy :
    (∀ (α : Type) (pg : GHPage α) (rest : List (GHPage α)) (url : String)
        (p : Bool), pg.status = 403 →
      listIssuesPages (pg :: rest) url p =
        (.request url p :: .sleep 3600 :: (listIssuesPages rest url p).1,
          (listIssuesPages rest url p).2)) ∧
    (∀ (α : Type) (pg : GHPage α) (rest : List (GHPage α)) (url : String)
        (p : Bool), pg.status ≠ 403 → pg.status ≠ 200 →
      listIssuesPages (pg :: rest) url p =
        ([.request url p], .fatal pg.status)) ∧
    (∀ (α : Type) (pages : List (GHPage α)) (url : String) (p : Bool),
      (∀ n, ((listIssuesPages pages url p).1)[0]? ≠ some (.sleep n)) ∧
      (∀ i n, ((listIssuesPages pages url p).1)[i + 1]? = some (.sleep n) →
        n = 3600 ∧ ∃ u q,
          ((listIssuesPages pages url p).1)[i]? = some (.request u q) ∧
          (((listIssuesPages pages url p).1)[i + 2]? = none ∨
            ((listIssuesPages pages url p).1)[i + 2]? =
              some (.request u q)))) ∧
    (∀ (α : Type) (pages : List (GHPage α)) (url : String) (p : Bool)
        (s : Nat), (listIssuesPages pages url p).2 = .fatal s →
      s ≠ 200 ∧ s ≠ 403 ∧
      ∃ u q, ((listIssuesPages pages url p).1).getLast? =
        some (.request u q)) ∧
    (∀ (α : Type) (pg : GHPage α) (rest : List (GHPage α)) (url : String)
        (p : Bool), pg.status = 403 →
      listCommentsPages (pg :: rest) url p =
        (.request url p :: .sleep 3600 :: (listCommentsPages rest url p).1,
          (listCommentsPages rest url p).2)) ∧
    (∀ (α : Type) (pg : GHPage α) (rest : List (GHPage α)) (url : String)
        (p : Bool), pg.status = 404 →
      listCommentsPages (pg :: rest) url p =
        (.request url p :: .sleep 10 :: (listCommentsPages rest url p).1,
          (listCommentsPages rest url p).2)) ∧
    (∀ (α : Type) (pg : GHPage α) (rest : List (GHPage α)) (url : String)
        (p : Bool), pg.status ≠ 403 → pg.status ≠ 404 → pg.status ≠ 200 →
      listCommentsPages (pg :: rest) url p =
        ([.request url p], .fatal pg.status)) ∧
    (∀ (α : Type) (pages : List (GHPage α)) (url : String) (p : Bool),
      (∀ n, ((listCommentsPages pages url p).1)[0]? ≠ some (.sleep n)) ∧
      (∀ i n, ((listCommentsPages pages url p).1)[i + 1]? =
          some (.sleep n) →
        (n = 3600 ∨ n = 10) ∧ ∃ u q,
          ((listCommentsPages pages url p).1)[i]? = some (.request u q) ∧
          (((listCommentsPages pages url p).1)[i + 2]? = none ∨
            ((listCommentsPages pages url p).1)[i + 2]? =
              some (.request u q)))) ∧
    (∀ (α : Type) (pages : List (GHPage α)) (url : String) (p : Bool)
        (s : Nat), (listCommentsPages pages url p).2 = .fatal s →
      s ≠ 200 ∧ s ≠ 403 ∧ s ≠ 404 ∧
      ∃ u q, ((listCommentsPages pages url p).1).getLast? =
        some (.request u q)) := by
  refine ⟨?_, ?_, ?_, ?_, ?_, ?_, ?_, ?_, ?_⟩
  · intro α pg rest url p h403
    conv_lhs => rw [listIssuesPages]
    rw [if_pos h403]
  · intro α pg rest url p h403 h200
    conv_lhs => rw [listIssuesPages]
    rw [if_neg h403, if_pos h200]
  · intro α pages url p
    exact listIssuesPages_sleep_shape pages url p
  · intro α pages url p s h
    exact listIssuesPages_fatal pages url p s h
  · intro α pg rest url p h403
    conv_lhs => rw [listCommentsPages]
    rw [if_pos h403]
  · intro α pg rest url p h404
    conv_lhs => rw [listCommentsPages]
    rw [if_neg (by rw [h404]; decide), if_pos h404]
  · intro α pg rest url p h403 h404 h200
    conv_lhs => rw [listCommentsPages]
    rw [if_neg h403, if_neg h404, if_pos h200]
  · intro α pages url p
    exact listCommentsPages_sleep_shape pages url p
  · intro α pages url p s h
    exact listCommentsPages_fatal pages url p s h

theorem github_paging_error_policy_witness :
    (listIssuesPages [(⟨403, [], none⟩ : GHPage Nat)] "u" true =
      (.request "u" true :: .sleep 3600 ::
        (listIssuesPages ([] : List (GHPage Nat)) "u" true).1,
        (listIssuesPages ([] : List (GHPage Nat)) "u" true).2)) ∧
    (listIssuesPages [(⟨500, [], none⟩ : GHPage Nat)] "u" true =
      ([.request "u" true], .fatal 500)) ∧
    (listCommentsPages [(⟨404, [], none⟩ : GHPage Nat)] "u" true =
      (.request "u" true :: .sleep 10 ::
        (listCommentsPages ([] : List (GHPage Nat)) "u" true).1,
        (listCommentsPages ([] : List (GHPage Nat)) "u" true).2)) ∧
    ((500 : Nat) ≠ 200 ∧ (500 : Nat) ≠ 403 ∧ (500 : Nat) ≠ 404 ∧
      ∃ u q, ((listCommentsPages [(⟨500, [], none⟩ : GHPage Nat)] "u"
        true).1).getLast? = some (.request u q)) :=
  ⟨github_paging_error_policy.1 Nat ⟨403, [], none⟩ [] "u" true rfl,
    github_paging_error_policy.2.1 Nat ⟨500, [], none⟩ [] "u" true
      (by decide) (by decide),
    github_paging_error_policy.2.2.2.2.2.1 Nat ⟨404, [], none⟩ [] "u" true
      rfl,
    github_paging_error_policy.2.2.2.2.2.2.2.2 Nat
      [(⟨500, [], none⟩ : GHPage Nat)] "u" true 500 (by decide)⟩
